import Mathlib

/-!
Verification of the staged-build orchestration library (cargo-5730).

Strings from the Rust source are modelled as `List Char`; filesystem trees
as finite labelled trees; process invocations as records.  Each definition
is a shallow embedding of the corresponding item in `src/lib.rs`.
-/

/-! ## Manifest path rewriter (`qualify_cargo_toml_paths_in_text`, lib.rs 68-83) -/

/-- Model of Rust `str::replace` (non-overlapping, left-to-right scan).
The source only ever calls it with a nonempty needle; for an empty needle
this model returns the text unchanged (a case the source never exercises). -/
def replace (p r : List Char) (l : List Char) : List Char :=
  if h : p ≠ [] ∧ p.isPrefixOf l then
    r ++ replace p r (l.drop p.length)
  else
    match l with
    | [] => []
    | c :: cs => c :: replace p r cs
termination_by l.length
decreasing_by
  · have hiff := List.isPrefixOf_iff_prefix.mp h.2
    have hp : p.length ≤ l.length := hiff.length_le
    have hp0 : 0 < p.length := List.length_pos.mpr h.1
    simp only [List.length_drop]
    omega
  · simp

/-- Lowercase hexadecimal digit, as produced by Rust's `LowerHex` formatter. -/
def hexDigitChar (n : Nat) : Char :=
  match n with
  | 0 => '0' | 1 => '1' | 2 => '2' | 3 => '3' | 4 => '4'
  | 5 => '5' | 6 => '6' | 7 => '7' | 8 => '8' | 9 => '9'
  | 10 => 'a' | 11 => 'b' | 12 => 'c' | 13 => 'd' | 14 => 'e' | 15 => 'f'
  | _ => '0'

/-- Lowercase hex rendering of a natural number, most significant digit first
(as printed inside Rust's `\u{...}` escapes).  The first argument is fuel;
`n + 1` units always suffice since the value shrinks at every step. -/
def toHexCore : Nat → Nat → List Char → List Char
  | 0, _, acc => acc
  | fuel + 1, n, acc =>
    let d := hexDigitChar (n % 16)
    if n / 16 = 0 then d :: acc else toHexCore fuel (n / 16) (d :: acc)

/-- Lowercase hex rendering of `n`, e.g. `7f`. -/
def toHex (n : Nat) : List Char := toHexCore (n + 1) n []

/-- Model of Rust `char::escape_default`:  `\t`, `\r`, `\n`, `\\`, `\'`, `\"`
are escaped with a backslash, printable ASCII is kept, and every other
character becomes a `\u{...}` escape with lowercase hex digits. -/
def escapeChar (c : Char) : List Char :=
  if c = '\t' then ['\\', 't']
  else if c = '\r' then ['\\', 'r']
  else if c = '\n' then ['\\', 'n']
  else if c = '\\' then ['\\', '\\']
  else if c = '\'' then ['\\', '\'']
  else if c = '"' then ['\\', '"']
  else if 0x20 ≤ c.toNat ∧ c.toNat ≤ 0x7e then [c]
  else '\\' :: 'u' :: '{' :: (toHex c.toNat ++ ['}'])

/-- Model of Rust `str::escape_default` (escape each char in sequence). -/
def escapeDefault (s : List Char) : List Char := (s.map escapeChar).join

/-- The four key/value spellings rewritten by the manifest path rewriter. -/
def pat1 : List Char := ['p', 'a', 't', 'h', ' ', '=', ' ', '"']

def pat2 : List Char := ['p', 'a', 't', 'h', '=', '"']

def pat3 : List Char := ['p', 'a', 't', 'h', ' ', '=', ' ', '\'']

def pat4 : List Char := ['p', 'a', 't', 'h', '=', '\'']

/-- Replacement text for a pattern: the pattern itself followed by the escaped
base directory and a `/` (this is what Rust's `format!("path = \"{}/", base_dir)`
builds, for each of the four spellings). -/
def repl (p b : List Char) : List Char := p ++ b ++ ['/']

/-- Model of `qualify_cargo_toml_paths_in_text` (lib.rs 68-83): escape the
textual form of `base_dir`, then run the four sequential `str::replace`
calls, in source order. -/
def qualify_cargo_toml_paths_in_text (text : List Char) (baseDir : List Char) : List Char :=
  let b := escapeDefault baseDir
  replace pat4 (repl pat4 b)
    (replace pat3 (repl pat3 b)
      (replace pat2 (repl pat2 b)
        (replace pat1 (repl pat1 b) text)))

/-- Modelled from the spec: rewrite in one left-to-right pass, inserting
`<escaped base>/` immediately after the opening quote at every literal
occurrence of one of the four patterns and copying every other byte
unchanged.  This is the spec-side reference the source is compared with. -/
def qualifySpec (b : List Char) : List Char → List Char
  | [] => []
  | c :: cs =>
    if pat1.isPrefixOf (c :: cs) then repl pat1 b ++ qualifySpec b ((c :: cs).drop pat1.length)
    else if pat2.isPrefixOf (c :: cs) then repl pat2 b ++ qualifySpec b ((c :: cs).drop pat2.length)
    else if pat3.isPrefixOf (c :: cs) then repl pat3 b ++ qualifySpec b ((c :: cs).drop pat3.length)
    else if pat4.isPrefixOf (c :: cs) then repl pat4 b ++ qualifySpec b ((c :: cs).drop pat4.length)
    else c :: qualifySpec b cs
termination_by l => l.length
decreasing_by all_goals simp +arith [pat1, pat2, pat3, pat4]

/-- Predicate `Blocks u p`: no occurrence of `p` can start anywhere inside `u`,
whatever text follows `u`. -/
def Blocks (u p : List Char) : Prop :=
  ∀ i, i < u.length → ∀ t : List Char, ¬ p <+: (u.drop i ++ t)

/-- No raw quote: every `"` or `'` in the list is preceded by a backslash.
This is the shape of `escape_default` output that keeps inserted base
directories from creating new pattern occurrences. -/
def noRawQuote (l : List Char) : Prop :=
  ∀ i, (l[i]? = some '"' ∨ l[i]? = some '\'') → ∃ j, i = j + 1 ∧ l[j]? = some '\\'

/-- A filesystem entry: a regular file with its text content, or a directory
with an ordered listing (the order of `read_dir`). -/
inductive Entry where
  | file : List Char → Entry
  | dir : List (String × Entry) → Entry

/-- First entry with the given name (directory listings of a real filesystem
have unique names). -/
def getEntry : List (String × Entry) → String → Option Entry
  | [], _ => none
  | (m, e) :: rest, n => if m = n then some e else getEntry rest n

/-- Create or overwrite the entry with the given name. -/
def setEntry : List (String × Entry) → String → Entry → List (String × Entry)
  | [], n, e => [(n, e)]
  | (m, x) :: rest, n, e => if m = n then (n, e) :: rest else (m, x) :: setEntry rest n e

/-- Remove the entry with the given name. -/
def removeEntry : List (String × Entry) → String → List (String × Entry)
  | [], _ => []
  | (m, x) :: rest, n => if m = n then removeEntry rest n else (m, x) :: removeEntry rest n

/-- Follow a relative path from an entry. -/
def lookupE : Entry → List String → Option Entry
  | e, [] => some e
  | Entry.file _, _ :: _ => none
  | Entry.dir d, n :: rest =>
    match getEntry d n with
    | some e => lookupE e rest
    | none => none

/-- Follow a relative path from a directory listing. -/
def lookupPathD (d : List (String × Entry)) (p : List String) : Option Entry :=
  lookupE (Entry.dir d) p

def hasKey (d : List (String × Entry)) (n : String) : Bool :=
  d.any (fun x => x.1 == n)

/-- Well-formedness of a real directory tree: names are unique in every
listing, recursively. -/
def wfDir : List (String × Entry) → Bool
  | [] => true
  | (n, Entry.file _) :: rest => !hasKey rest n && wfDir rest
  | (n, Entry.dir d) :: rest => !hasKey rest n && wfDir d && wfDir rest

/-- Model of `cp_r` (lib.rs 35-65): walk the source listing in order; for a
directory entry run `create_dir_all` (ok if a directory already exists,
fatal if a file is in the way, creates it if missing) and recurse; for a
file entry remove any conflicting destination entry (recursively if it is a
directory) and write a fresh file with the source content.  A fatal error
carries the destination state at the moment of the failure. -/
def cpDir : List (String × Entry) → List (String × Entry) →
    Except (String × List (String × Entry)) (List (String × Entry))
  | [], out => Except.ok out
  | (n, Entry.file c) :: rest, out =>
    let cleared :=
      match getEntry out n with
      | some _ => removeEntry out n
      | none => out
    cpDir rest (setEntry cleared n (Entry.file c))
  | (n, Entry.dir sub) :: rest, out =>
    match getEntry out n with
    | some (Entry.file _) => Except.error ("Cannot create directory", out)
    | some (Entry.dir d0) =>
      match cpDir sub d0 with
      | Except.error (msg, st) => Except.error (msg, setEntry out n (Entry.dir st))
      | Except.ok st => cpDir rest (setEntry out n (Entry.dir st))
    | none =>
      match cpDir sub [] with
      | Except.error (msg, st) => Except.error (msg, setEntry out n (Entry.dir st))
      | Except.ok st => cpDir rest (setEntry out n (Entry.dir st))

/-- Model of `fs::create_dir_all` on the root tree: ok and unchanged where directories
exist, fatal if a file blocks a component, creates missing directories. -/
def createDirAll : List (String × Entry) → List String → Option (List (String × Entry))
  | fs, [] => some fs
  | fs, n :: rest =>
    match getEntry fs n with
    | some (Entry.file _) => none
    | some (Entry.dir d) =>
      match createDirAll d rest with
      | some d' => some (setEntry fs n (Entry.dir d'))
      | none => none
    | none =>
      match createDirAll [] rest with
      | some d' => some (setEntry fs n (Entry.dir d'))
      | none => none

/-- Model of `fs::remove_dir_all` on the root tree: fails if the path is missing or
names a file, otherwise removes the directory recursively. -/
def removeDirAllP : List (String × Entry) → List String → Option (List (String × Entry))
  | _, [] => none
  | fs, [n] =>
    match getEntry fs n with
    | some (Entry.dir _) => some (removeEntry fs n)
    | _ => none
  | fs, n :: rest =>
    match getEntry fs n with
    | some (Entry.dir d) =>
      match removeDirAllP d rest with
      | some d' => some (setEntry fs n (Entry.dir d'))
      | none => none
    | _ => none

/-- Write an entry at a path (parents exist in every use below). -/
def setPath : List (String × Entry) → List String → Entry → List (String × Entry)
  | fs, [], _ => fs
  | fs, [n], e => setEntry fs n e
  | fs, n :: rest, e =>
    match getEntry fs n with
    | some (Entry.dir d) => setEntry fs n (Entry.dir (setPath d rest e))
    | _ => setEntry fs n (Entry.dir (setPath [] rest e))

/-- Model of `Drop for BuildDir` (lib.rs 22-33): assert the stored path is
under the system temp root (`Path::starts_with` is component-wise prefix),
then `remove_dir_all` it; either failure aborts, carrying the untouched
filesystem. -/
def buildDirDrop (fs : List (String × Entry)) (stagingDir tempRoot : List String) :
    Except (String × List (String × Entry)) (List (String × Entry)) :=
  if tempRoot.isPrefixOf stagingDir then
    match removeDirAllP fs stagingDir with
    | some fs' => Except.ok fs'
    | none => Except.error ("Couldn't clean up build dir", fs)
  else
    Except.error ("assertion failed: self.path.starts_with(env::temp_dir())", fs)

/-! ## Process and orchestration model (`run_build_crate`, lib.rs 98-195) -/

/-- A process invocation: program, arguments, environment disposition
(`none` = inherit the parent environment wholesale, `some l` = cleared
environment holding exactly `l`), and working directory. -/
structure Command where
  program : String
  args : List String
  envMode : Option (List (String × String))
  cwd : List String
deriving DecidableEq

/-- Model of `env::var`: first binding of the name in the ambient environment. -/
def envVar (env : List (String × String)) (k : String) : Option String :=
  match env.find? (fun x => x.1 == k) with
  | some x => some x.2
  | none => none

inductive Outcome where
  | success
  | panicked (msg : String)
deriving DecidableEq

inductive Event where
  | rerunIfChanged (p : List String)
  | spawnCompile (c : Command)
  | spawnScript (c : Command)
  | removedStaging (p : List String)
deriving DecidableEq

structure RunResult where
  outcome : Outcome
  fs : List (String × Entry)
  events : List Event

/-- Ambient world of one orchestration run: environment variables, the
filesystem, `env::temp_dir()`, the clock second, and the two subprocess
exit statuses (oracles for the external compile and script subprocesses). -/
structure Sys where
  env : List (String × String)
  fs : List (String × Entry)
  tempDir : List String
  nowSecs : Nat
  compileOk : Bool
  scriptOk : Bool

/-- Model of `BuildDir::new` (lib.rs 10-19): `<temp_dir>/build-script-<unix seconds>`. -/
def stagingPath (s : Sys) : List String :=
  s.tempDir ++ ["build-script-" ++ toString s.nowSecs]

def pathToString (p : List String) : String := "/" ++ String.intercalate "/" p

/-- Model of `compile_build_crate` (lib.rs 98-123): `cargo build -vv` with a cleared
environment holding exactly the fixed variable list (SYSTEMROOT read fresh
from the ambient environment), run in the staging directory. -/
def compile_build_crate (ambient : List (String × String)) (buildDirPath : List String)
    (cargo temp pathv ssh rustupHome rustupToolchain : String) : Command :=
  { program := cargo
    args := ["build", "-vv"]
    envMode := some [("TEMP", temp), ("SYSTEMROOT", (envVar ambient "SYSTEMROOT").getD ""),
      ("PATH", pathv), ("SSH_AUTH_SOCK", ssh), ("RUSTUP_HOME", rustupHome),
      ("RUSTUP_TOOLCHAIN", rustupToolchain)]
    cwd := buildDirPath }

/-- Model of `run_build_script` (lib.rs 125-149): run
`<staging>/target/debug/<executable_name>` in the original source directory
with the inherited (unrestricted) environment. -/
def run_build_script_cmd (buildDirPath : List String) (executableName : String)
    (workingDir : List String) : Command :=
  { program := pathToString (buildDirPath ++ ["target", "debug", executableName])
    args := []
    envMode := none
    cwd := workingDir }

/-- Scope exit of `BuildDir` (RAII): run the destructor whatever the outcome;
a destructor failure turns the outcome into an abort. -/
def finishDrop (fs : List (String × Entry)) (staging tempRoot : List String)
    (evs : List Event) (oc : Outcome) : RunResult :=
  match buildDirDrop fs staging tempRoot with
  | Except.ok fs' => ⟨oc, fs', evs ++ [Event.removedStaging staging]⟩
  | Except.error (m, fs') => ⟨Outcome.panicked m, fs', evs⟩

/-- Model of the entry point `run_build_crate` (lib.rs 151-195), with the
source's sequencing: emit the rerun directive, compute the staging path,
take the executable name from the last path component, read the environment,
create the staging directory, mirror the tree, rewrite the staged manifest,
compile, run, and drop the staging directory on every exit path. -/
def run_build_crate (s : Sys) (src : List String) : RunResult :=
  let evs := [Event.rerunIfChanged src]
  let staging := stagingPath s
  match src.getLast? with
  | none => finishDrop s.fs staging s.tempDir evs
      (Outcome.panicked "Couldn't get file name from build crate src dir")
  | some execName =>
  match envVar s.env "CARGO" with
  | none => finishDrop s.fs staging s.tempDir evs (Outcome.panicked "Can't get CARGO from env")
  | some cargo =>
  let temp := (envVar s.env "TEMP").getD ""
  match envVar s.env "PATH" with
  | none => finishDrop s.fs staging s.tempDir evs (Outcome.panicked "Can't get PATH from env")
  | some pathv =>
  let ssh := (envVar s.env "SSH_AUTH_SOCK").getD ""
  match envVar s.env "CARGO_MANIFEST_DIR" with
  | none => finishDrop s.fs staging s.tempDir evs
      (Outcome.panicked "Can't get CARGO_MANIFEST_DIR from env")
  | some manifestDir =>
  let baseDir := (manifestDir ++ "/build-script").toList
  let rustupHome := (envVar s.env "RUSTUP_HOME").getD ""
  let rustupToolchain := (envVar s.env "RUSTUP_TOOLCHAIN").getD ""
  match createDirAll s.fs staging with
  | none => finishDrop s.fs staging s.tempDir evs (Outcome.panicked "Cannot create build directory")
  | some fs1 =>
  match lookupPathD fs1 src, lookupPathD fs1 staging with
  | some (Entry.dir srcEntries), some (Entry.dir stEntries) =>
    (match cpDir srcEntries stEntries with
     | Except.error (msg, st) =>
       finishDrop (setPath fs1 staging (Entry.dir st)) staging s.tempDir evs
         (Outcome.panicked msg)
     | Except.ok st =>
       let fs2 := setPath fs1 staging (Entry.dir st)
       match lookupPathD fs2 (staging ++ ["Cargo.toml"]) with
       | some (Entry.file content) =>
         let fs3 := setPath fs2 (staging ++ ["Cargo.toml"])
           (Entry.file (qualify_cargo_toml_paths_in_text content baseDir))
         let cc := compile_build_crate s.env staging cargo temp pathv ssh
           rustupHome rustupToolchain
         let evs2 := evs ++ [Event.spawnCompile cc]
         if s.compileOk then
           let rc := run_build_script_cmd staging execName src
           let evs3 := evs2 ++ [Event.spawnScript rc]
           if s.scriptOk then finishDrop fs3 staging s.tempDir evs3 Outcome.success
           else finishDrop fs3 staging s.tempDir evs3
             (Outcome.panicked "Failed to run build script")
         else finishDrop fs3 staging s.tempDir evs2
           (Outcome.panicked "failed to compile build-script crate")
       | _ => finishDrop fs2 staging s.tempDir evs
           (Outcome.panicked "Can't read Cargo.toml to stream"))
  | _, _ => finishDrop fs1 staging s.tempDir evs (Outcome.panicked "read_dir call failed")

/-- The compile invocations recorded during a run. -/
def compileSpawns (r : RunResult) : List Command :=
  r.events.filterMap (fun e =>
    match e with
    | Event.spawnCompile c => some c
    | _ => none)

/-- The build-script invocations recorded during a run. -/
def scriptSpawns (r : RunResult) : List Command :=
  r.events.filterMap (fun e =>
    match e with
    | Event.spawnScript c => some c
    | _ => none)

/-- The staging removals recorded during a run. -/
def removals (r : RunResult) : List (List String) :=
  r.events.filterMap (fun e =>
    match e with
    | Event.removedStaging p => some p
    | _ => none)

/-! ## Lemmas about directory-listing operations -/

/-- The fixed allow-list of ambient variables the compile step depends on. -/
def allowNames : List String :=
  ["CARGO", "TEMP", "SYSTEMROOT", "PATH", "SSH_AUTH_SOCK", "RUSTUP_HOME", "RUSTUP_TOOLCHAIN"]

/-- The compile invocation a run will spawn, if it reaches the compile step. -/
def compileCmdOf (s : Sys) (src : List String) : Option Command :=
  match src.getLast?, envVar s.env "CARGO", envVar s.env "PATH",
      envVar s.env "CARGO_MANIFEST_DIR" with
  | some _, some cargo, some pathv, some _ =>
    (match createDirAll s.fs (stagingPath s) with
     | none => none
     | some fs1 =>
       match lookupPathD fs1 src, lookupPathD fs1 (stagingPath s) with
       | some (Entry.dir srcEntries), some (Entry.dir stEntries) =>
         (match cpDir srcEntries stEntries with
          | Except.error _ => none
          | Except.ok st =>
            match lookupPathD (setPath fs1 (stagingPath s) (Entry.dir st))
                (stagingPath s ++ ["Cargo.toml"]) with
            | some (Entry.file _) =>
              some (compile_build_crate s.env (stagingPath s) cargo
                ((envVar s.env "TEMP").getD "") pathv ((envVar s.env "SSH_AUTH_SOCK").getD "")
                ((envVar s.env "RUSTUP_HOME").getD "") ((envVar s.env "RUSTUP_TOOLCHAIN").getD ""))
            | _ => none)
       | _, _ => none)
  | _, _, _, _ => none

/-- Some pattern occurs somewhere in the text. -/
def hasPattern (l : List Char) : Prop :=
  ∃ i, pat1 <+: l.drop i ∨ pat2 <+: l.drop i ∨ pat3 <+: l.drop i ∨ pat4 <+: l.drop i

/-- A concrete world for exercising the orchestration claims: a source tree
`/src` holding an empty `Cargo.toml`, the three required variables set, the
temp root `/tmp`, clock second 0, both subprocesses succeeding. -/
def sampleSys : Sys :=
  { env := [("CARGO", "/usr/bin/cargo"), ("PATH", "/usr/bin"),
      ("CARGO_MANIFEST_DIR", "/proj")]
    fs := [("src", Entry.dir [("Cargo.toml", Entry.file [])])]
    tempDir := ["tmp"]
    nowSecs := 0
    compileOk := true
    scriptOk := true }

/-- The unit test `test_path_fixup_1` from lib.rs, replayed on the model. -/
theorem test_path_fixup_1 :
    qualify_cargo_toml_paths_in_text
      ("lib-crate = \x7b path = \"../../lib-crate\" \x7d".toList)
      ("/basedir".toList)
    = ("lib-crate = \x7b path = \"/basedir/../../lib-crate\" \x7d".toList) := by
  simp [qualify_cargo_toml_paths_in_text, replace, escapeDefault, escapeChar,
    pat1, pat2, pat3, pat4, repl]

/-! ## Machinery: how `str::replace` interacts with pattern occurrences -/

theorem isPrefixOf_true_iff {α : Type} [BEq α] [LawfulBEq α] {l₁ l₂ : List α} :
    l₁.isPrefixOf l₂ = true ↔ l₁ <+: l₂ :=
  List.isPrefixOf_iff_prefix

theorem nil_prefix_of (l : List Char) : [] <+: l :=
  List.nil_prefix

theorem prefix_total {l₁ l₂ l₃ : List Char} (h1 : l₁ <+: l₃) (h2 : l₂ <+: l₃) :
    l₁ <+: l₂ ∨ l₂ <+: l₁ :=
  List.prefix_or_prefix_of_prefix h1 h2

theorem replace_nil (p r : List Char) : replace p r [] = [] := by
  rw [replace]
  split
  · rename_i h
    exact absurd (isPrefixOf_true_iff.mp h.2) (by simp [h.1])
  · rfl

theorem replace_head_match {p l : List Char} (r : List Char) (h0 : p ≠ [])
    (h : p <+: l) : replace p r l = r ++ replace p r (l.drop p.length) := by
  rw [replace, dif_pos ⟨h0, isPrefixOf_true_iff.mpr h⟩]

theorem replace_cons_neg {p : List Char} (r : List Char) {c : Char} {cs : List Char}
    (h : ¬ p <+: (c :: cs)) : replace p r (c :: cs) = c :: replace p r cs := by
  rw [replace, dif_neg]
  intro hc
  exact h (isPrefixOf_true_iff.mp hc.2)

theorem blocks_tail {u p : List Char} {c : Char} (h : Blocks (c :: u) p) : Blocks u p := by
  intro i hi t
  have := h (i + 1) (by simpa using Nat.succ_lt_succ hi) t
  simpa using this

/-- A prefix skips over a blocked chunk unchanged. -/
theorem replace_append {u p : List Char} (r : List Char) (hb : Blocks u p) (t : List Char) :
    replace p r (u ++ t) = u ++ replace p r t := by
  induction u with
  | nil => simp
  | cons c u' ih =>
    have h0 : ¬ p <+: (c :: (u' ++ t)) := by
      have := hb 0 (by simp) t
      simpa using this
    rw [List.cons_append, replace_cons_neg r h0, ih (blocks_tail hb), List.cons_append]

theorem prefix_getElem? {p w : List Char} (h : p <+: w) {k : Nat} (hk : k < p.length) :
    w[k]? = p[k]? := by
  obtain ⟨s, rfl⟩ := h
  exact List.getElem?_append_left hk

/-- Decidable criterion for `Blocks`: every start position inside `u` sees a
character mismatch with `p` before `u` runs out. -/
theorem blocksOfMismatch {u p : List Char}
    (h : ∀ i < u.length, ∃ k, k < p.length ∧ i + k < u.length ∧ u[i + k]? ≠ p[k]?) :
    Blocks u p := by
  intro i hi t hpre
  obtain ⟨k, hk, hik, hne⟩ := h i hi
  have hlen : k < (u.drop i).length := by simp [List.length_drop]; omega
  have h1 : (u.drop i ++ t)[k]? = p[k]? := prefix_getElem? hpre hk
  rw [List.getElem?_append_left hlen, List.getElem?_drop] at h1
  exact hne h1

/-- The replacement text `pj ++ b ++ ['/']` (with `b` escaped) cannot contain,
nor start, an occurrence of a later pattern `pk`. -/
theorem blocks_repl {pj pk : List Char} (b : List Char)
    (hnq : noRawQuote b)
    (hc1 : ¬ pk <+: pj) (hc2 : ¬ pj <+: pk)
    (hheads : ∀ i < pj.length, 0 < i → pj[i]? ≠ pk[0]?)
    (hslash : '/' ∉ pk)
    (hlen : 2 ≤ pk.length)
    (hqk : pk[pk.length - 1]? = some '"' ∨ pk[pk.length - 1]? = some '\'')
    (hpen : pk[pk.length - 2]? ≠ some '\\') :
    Blocks (pj ++ b ++ ['/']) pk := by
  have hassoc : pj ++ b ++ ['/'] = pj ++ (b ++ ['/']) := List.append_assoc pj b ['/']
  rw [hassoc]
  intro i hi t hpre
  rw [List.length_append, List.length_append] at hi
  rcases Nat.lt_or_ge i pj.length with hA | hC
  · -- the start position lies inside `pj`
    rw [List.drop_append_of_le_length (le_of_lt hA)] at hpre
    rcases Nat.eq_zero_or_pos i with rfl | hpos
    · rw [List.drop_zero, List.append_assoc] at hpre
      rcases prefix_total hpre
          (List.prefix_append pj (b ++ ['/'] ++ t)) with h | h
      · exact hc1 h
      · exact hc2 h
    · have h0 : (pj.drop i ++ (b ++ ['/']) ++ t)[0]? = pk[0]? :=
        prefix_getElem? hpre (show 0 < pk.length by omega)
      have hlt : 0 < (pj.drop i).length := by simp [List.length_drop]; omega
      rw [List.append_assoc, List.getElem?_append_left hlt, List.getElem?_drop] at h0
      exact hheads i hA hpos (by simpa using h0)
  · -- the start position lies inside `b ++ ['/']`
    set m := i - pj.length with hm
    have hmle : m ≤ b.length := by simp at hi; omega
    have hdrop2 : (pj ++ (b ++ ['/'])).drop i = b.drop m ++ ['/'] := by
      rw [show i = pj.length + m by omega, List.drop_append m,
        List.drop_append_of_le_length hmle]
    rw [hdrop2, List.append_assoc] at hpre
    set n := pk.length - 1 with hn
    have hn1 : 1 ≤ n := by omega
    have hnlt : n < pk.length := by omega
    have hdlen : (b.drop m).length = b.length - m := by simp [List.length_drop]
    rcases lt_trichotomy n (b.length - m) with hcase | hcase | hcase
    · -- the final quote of `pk` would land inside `b`, where every quote
      -- is preceded by a backslash
      have e1 : (b.drop m ++ (['/'] ++ t))[n]? = pk[n]? := prefix_getElem? hpre hnlt
      rw [List.getElem?_append_left (by omega), List.getElem?_drop] at e1
      have hq : b[m + n]? = some '"' ∨ b[m + n]? = some '\'' := by
        rw [e1, hn]; exact hqk
      obtain ⟨j, hj, hbs⟩ := hnq (m + n) hq
      have e2 : (b.drop m ++ (['/'] ++ t))[n - 1]? = pk[n - 1]? :=
        prefix_getElem? hpre (by omega)
      rw [List.getElem?_append_left (by omega), List.getElem?_drop] at e2
      have hbad : pk[n - 1]? = some '\\' := by
        rw [← e2, show m + (n - 1) = j by omega, hbs]
      exact hpen (by rw [show pk.length - 2 = n - 1 by omega]; exact hbad)
    · -- the final quote of `pk` would land on the separating slash
      have e1 : (b.drop m ++ (['/'] ++ t))[n]? = pk[n]? := prefix_getElem? hpre hnlt
      rw [List.getElem?_append_right (by omega)] at e1
      rw [hdlen, show n - (b.length - m) = 0 by omega] at e1
      simp only [List.cons_append, List.getElem?_cons_zero] at e1
      rcases hqk with hq | hq <;> rw [hn] at e1 <;> rw [← e1] at hq <;>
        exact absurd hq (by decide)
    · -- `pk` would have to contain the separating slash
      have hk : b.length - m < pk.length := by omega
      have e3 : (b.drop m ++ (['/'] ++ t))[b.length - m]? = pk[b.length - m]? :=
        prefix_getElem? hpre hk
      rw [List.getElem?_append_right (by omega)] at e3
      rw [hdlen, show b.length - m - (b.length - m) = 0 by omega] at e3
      simp only [List.cons_append, List.getElem?_cons_zero] at e3
      exact hslash (List.getElem?_mem e3.symm)

theorem noRawQuote_append {x y : List Char} (hx : noRawQuote x) (hy : noRawQuote y) :
    noRawQuote (x ++ y) := by
  intro i hq
  rcases Nat.lt_or_ge i x.length with hi | hi
  · rw [List.getElem?_append_left hi] at hq
    obtain ⟨j, hj, hb⟩ := hx i hq
    exact ⟨j, hj, by rw [List.getElem?_append_left (by omega)]; exact hb⟩
  · rw [List.getElem?_append_right hi] at hq
    obtain ⟨j, hj, hb⟩ := hy (i - x.length) hq
    refine ⟨x.length + j, by omega, ?_⟩
    rw [List.getElem?_append_right (by omega)]
    simpa using hb

theorem noRawQuote_backslash_pair (x : Char) : noRawQuote ['\\', x] := by
  intro i hq
  match i with
  | 0 => simp at hq
  | 1 => exact ⟨0, rfl, rfl⟩
  | n + 2 => simp at hq

theorem noRawQuote_of_all {l : List Char} (h : ∀ a ∈ l, a ≠ '"' ∧ a ≠ '\'') :
    noRawQuote l := by
  intro i hq
  rcases hq with hq | hq <;> have hmem := List.getElem?_mem hq
  · exact absurd rfl (h _ hmem).1
  · exact absurd rfl (h _ hmem).2

theorem hexDigitChar_ne (n : Nat) : hexDigitChar n ≠ '"' ∧ hexDigitChar n ≠ '\'' := by
  unfold hexDigitChar
  split <;> exact (by decide)

theorem toHexCore_all (f : Nat) : ∀ (n : Nat) (acc : List Char),
    (∀ a ∈ acc, a ≠ '"' ∧ a ≠ '\'') →
    ∀ a ∈ toHexCore f n acc, a ≠ '"' ∧ a ≠ '\'' := by
  induction f with
  | zero => intro n acc h a ha; exact h a ha
  | succ f ih =>
    intro n acc h a ha
    rw [toHexCore] at ha
    by_cases hz : n / 16 = 0
    · rw [if_pos hz] at ha
      rcases List.mem_cons.mp ha with rfl | ha
      · exact hexDigitChar_ne _
      · exact h a ha
    · rw [if_neg hz] at ha
      refine ih (n / 16) (hexDigitChar (n % 16) :: acc) ?_ a ha
      intro x hx
      rcases List.mem_cons.mp hx with rfl | hx
      · exact hexDigitChar_ne _
      · exact h x hx

theorem noRawQuote_escapeChar (c : Char) : noRawQuote (escapeChar c) := by
  unfold escapeChar
  split
  · exact noRawQuote_backslash_pair _
  · split
    · exact noRawQuote_backslash_pair _
    · split
      · exact noRawQuote_backslash_pair _
      · split
        · exact noRawQuote_backslash_pair _
        · split
          · exact noRawQuote_backslash_pair _
          · split
            · exact noRawQuote_backslash_pair _
            · split
              · rename_i h1 h2 h3 h4 h5 h6 h7
                refine noRawQuote_of_all ?_
                intro a ha
                rcases List.mem_singleton.mp ha with rfl
                exact ⟨h6, h5⟩
              · refine noRawQuote_of_all ?_
                intro a ha
                rcases List.mem_cons.mp ha with rfl | ha
                · decide
                rcases List.mem_cons.mp ha with rfl | ha
                · decide
                rcases List.mem_cons.mp ha with rfl | ha
                · decide
                rcases List.mem_append.mp ha with ha | ha
                · exact toHexCore_all _ _ _ (by simp) a ha
                · rcases List.mem_singleton.mp ha with rfl
                  decide

theorem noRawQuote_escapeDefault (s : List Char) : noRawQuote (escapeDefault s) := by
  induction s with
  | nil =>
    intro i hq
    simp [escapeDefault] at hq
  | cons c s' ih =>
    have : escapeDefault (c :: s') = escapeChar c ++ escapeDefault s' := by
      simp [escapeDefault]
    rw [this]
    exact noRawQuote_append (noRawQuote_escapeChar c) ih

/-! Instances of non-interaction between patterns. -/

theorem blocksR12 (b : List Char) (hb : noRawQuote b) : Blocks (repl pat1 b) pat2 :=
  blocks_repl b hb (by decide) (by decide) (by decide) (by decide) (by decide)
    (by decide) (by decide)

theorem blocksR13 (b : List Char) (hb : noRawQuote b) : Blocks (repl pat1 b) pat3 :=
  blocks_repl b hb (by decide) (by decide) (by decide) (by decide) (by decide)
    (by decide) (by decide)

theorem blocksR14 (b : List Char) (hb : noRawQuote b) : Blocks (repl pat1 b) pat4 :=
  blocks_repl b hb (by decide) (by decide) (by decide) (by decide) (by decide)
    (by decide) (by decide)

theorem blocksR23 (b : List Char) (hb : noRawQuote b) : Blocks (repl pat2 b) pat3 :=
  blocks_repl b hb (by decide) (by decide) (by decide) (by decide) (by decide)
    (by decide) (by decide)

theorem blocksR24 (b : List Char) (hb : noRawQuote b) : Blocks (repl pat2 b) pat4 :=
  blocks_repl b hb (by decide) (by decide) (by decide) (by decide) (by decide)
    (by decide) (by decide)

theorem blocksR34 (b : List Char) (hb : noRawQuote b) : Blocks (repl pat3 b) pat4 :=
  blocks_repl b hb (by decide) (by decide) (by decide) (by decide) (by decide)
    (by decide) (by decide)

theorem blocksTail2Pat1 : Blocks ['a', 't', 'h', '=', '"'] pat1 :=
  blocksOfMismatch (by decide)

theorem blocksTail3Pat1 : Blocks ['a', 't', 'h', ' ', '=', ' ', '\''] pat1 :=
  blocksOfMismatch (by decide)

theorem blocksTail4Pat1 : Blocks ['a', 't', 'h', '=', '\''] pat1 :=
  blocksOfMismatch (by decide)

theorem blocksPat3Pat2 : Blocks pat3 pat2 := blocksOfMismatch (by decide)

theorem blocksPat4Pat2 : Blocks pat4 pat2 := blocksOfMismatch (by decide)

theorem blocksPat4Pat3 : Blocks pat4 pat3 := blocksOfMismatch (by decide)

/-- If a tail of a pattern `q` is a prefix of `replace p r l`, it was already a
prefix of `l`: replacement output fragments can never fake such a tail. -/
theorem tail_prefix_reflect {p q r : List Char} (hp0 : p ≠ []) (hr0 : r ≠ [])
    (hfull : ∀ t : List Char, ¬ q <+: (r ++ t))
    (hproper : ∀ j, 0 < j → j < q.length → q[j]? ≠ r[0]?) :
    ∀ l j, j ≤ q.length → q.drop j <+: replace p r l → q.drop j <+: l := by
  suffices H : ∀ N, ∀ l : List Char, l.length ≤ N →
      ∀ j, j ≤ q.length → q.drop j <+: replace p r l → q.drop j <+: l by
    intro l j hj hpre
    exact H l.length l le_rfl j hj hpre
  intro N
  induction N with
  | zero =>
    intro l hl j hj hpre
    have : l = [] := List.length_eq_zero.mp (Nat.le_zero.mp hl)
    subst this
    rwa [replace_nil] at hpre
  | succ N ih =>
    intro l hl j hj hpre
    by_cases hm : p <+: l
    · -- `replace` fires at the head of `l`
      rw [replace_head_match r hp0 hm] at hpre
      rcases Nat.lt_or_ge j q.length with hjlt | hjge
      · rcases Nat.eq_zero_or_pos j with rfl | hjpos
        · rw [List.drop_zero] at hpre
          exact absurd hpre (hfull _)
        · -- head characters disagree
          have hqd : 0 < (q.drop j).length := by simp [List.length_drop]; omega
          have h0 : (r ++ replace p r (l.drop p.length))[0]? = (q.drop j)[0]? :=
            prefix_getElem? hpre hqd
          rw [List.getElem?_append_left (List.length_pos.mpr hr0),
            List.getElem?_drop] at h0
          exact absurd (by simpa using h0.symm) (hproper j hjpos hjlt)
      · rw [List.drop_eq_nil_of_le hjge]
        exact nil_prefix_of _
    · cases l with
      | nil => rwa [replace_nil] at hpre
      | cons c cs =>
        rw [replace_cons_neg r hm] at hpre
        rcases Nat.lt_or_ge j q.length with hjlt | hjge
        · rw [List.drop_eq_getElem_cons hjlt] at hpre ⊢
          rcases List.cons_prefix_cons.mp hpre with ⟨hqc, htail⟩
          have hcs : q.drop (j + 1) <+: cs :=
            ih cs (by simp at hl; omega) (j + 1) (by omega) htail
          exact List.cons_prefix_cons.mpr ⟨hqc, hcs⟩
        · rw [List.drop_eq_nil_of_le hjge]
          exact nil_prefix_of _

/-- Step form of `tail_prefix_reflect`, for the head of a rewrite pass. -/
theorem reflect_cons {p q r : List Char} (hp0 : p ≠ []) (hr0 : r ≠ [])
    (hfull : ∀ t : List Char, ¬ q <+: (r ++ t))
    (hproper : ∀ j, 0 < j → j < q.length → q[j]? ≠ r[0]?)
    (c : Char) (cs : List Char) (h : q <+: (c :: replace p r cs)) : q <+: (c :: cs) := by
  cases q with
  | nil => exact nil_prefix_of _
  | cons qc qtl =>
    rcases List.cons_prefix_cons.mp h with ⟨rfl, htail⟩
    have h1 : qtl <+: cs := by
      have := tail_prefix_reflect hp0 hr0 hfull hproper cs 1
        (by simpa using Nat.succ_le_succ (Nat.zero_le qtl.length)) (by simpa using htail)
      simpa using this
    exact List.cons_prefix_cons.mpr ⟨rfl, h1⟩

theorem blocks_head {u p : List Char} (hb : Blocks u p) (hu : u ≠ []) :
    ∀ t : List Char, ¬ p <+: (u ++ t) := by
  intro t
  have := hb 0 (List.length_pos.mpr hu) t
  simpa using this

theorem repl_head {p : List Char} (b : List Char) (hp : p ≠ []) :
    (repl p b)[0]? = p[0]? := by
  rw [repl, List.append_assoc, List.getElem?_append_left (List.length_pos.mpr hp)]

theorem repl_ne_nil (p b : List Char) : repl p b ≠ [] := by simp [repl]

theorem reflect12 (b : List Char) (hb : noRawQuote b) (c : Char) (cs : List Char)
    (h : pat2 <+: (c :: replace pat1 (repl pat1 b) cs)) : pat2 <+: (c :: cs) :=
  reflect_cons (by decide) (repl_ne_nil pat1 b)
    (fun t => by simpa [repl] using blocks_head (blocksR12 b hb) (repl_ne_nil _ b) t)
    (fun j h1 h2 => by
      rw [repl_head b (by decide)]
      exact (by decide : ∀ j < pat2.length, 0 < j → pat2[j]? ≠ pat1[0]?) j h2 h1)
    c cs h

theorem reflect13 (b : List Char) (hb : noRawQuote b) (c : Char) (cs : List Char)
    (h : pat3 <+: (c :: replace pat1 (repl pat1 b) cs)) : pat3 <+: (c :: cs) :=
  reflect_cons (by decide) (repl_ne_nil pat1 b)
    (fun t => by simpa [repl] using blocks_head (blocksR13 b hb) (repl_ne_nil _ b) t)
    (fun j h1 h2 => by
      rw [repl_head b (by decide)]
      exact (by decide : ∀ j < pat3.length, 0 < j → pat3[j]? ≠ pat1[0]?) j h2 h1)
    c cs h

theorem reflect14 (b : List Char) (hb : noRawQuote b) (c : Char) (cs : List Char)
    (h : pat4 <+: (c :: replace pat1 (repl pat1 b) cs)) : pat4 <+: (c :: cs) :=
  reflect_cons (by decide) (repl_ne_nil pat1 b)
    (fun t => by simpa [repl] using blocks_head (blocksR14 b hb) (repl_ne_nil _ b) t)
    (fun j h1 h2 => by
      rw [repl_head b (by decide)]
      exact (by decide : ∀ j < pat4.length, 0 < j → pat4[j]? ≠ pat1[0]?) j h2 h1)
    c cs h

theorem reflect23 (b : List Char) (hb : noRawQuote b) (c : Char) (cs : List Char)
    (h : pat3 <+: (c :: replace pat2 (repl pat2 b) cs)) : pat3 <+: (c :: cs) :=
  reflect_cons (by decide) (repl_ne_nil pat2 b)
    (fun t => by simpa [repl] using blocks_head (blocksR23 b hb) (repl_ne_nil _ b) t)
    (fun j h1 h2 => by
      rw [repl_head b (by decide)]
      exact (by decide : ∀ j < pat3.length, 0 < j → pat3[j]? ≠ pat2[0]?) j h2 h1)
    c cs h

theorem reflect24 (b : List Char) (hb : noRawQuote b) (c : Char) (cs : List Char)
    (h : pat4 <+: (c :: replace pat2 (repl pat2 b) cs)) : pat4 <+: (c :: cs) :=
  reflect_cons (by decide) (repl_ne_nil pat2 b)
    (fun t => by simpa [repl] using blocks_head (blocksR24 b hb) (repl_ne_nil _ b) t)
    (fun j h1 h2 => by
      rw [repl_head b (by decide)]
      exact (by decide : ∀ j < pat4.length, 0 < j → pat4[j]? ≠ pat2[0]?) j h2 h1)
    c cs h

theorem reflect34 (b : List Char) (hb : noRawQuote b) (c : Char) (cs : List Char)
    (h : pat4 <+: (c :: replace pat3 (repl pat3 b) cs)) : pat4 <+: (c :: cs) :=
  reflect_cons (by decide) (repl_ne_nil pat3 b)
    (fun t => by simpa [repl] using blocks_head (blocksR34 b hb) (repl_ne_nil _ b) t)
    (fun j h1 h2 => by
      rw [repl_head b (by decide)]
      exact (by decide : ∀ j < pat4.length, 0 < j → pat4[j]? ≠ pat3[0]?) j h2 h1)
    c cs h

/-! Unfolding equations for `qualifySpec`. -/

theorem qspec_nil (b : List Char) : qualifySpec b [] = [] := by rw [qualifySpec]

theorem qspec_match1 {l : List Char} (b : List Char) (h : pat1 <+: l) :
    qualifySpec b l = repl pat1 b ++ qualifySpec b (l.drop pat1.length) := by
  cases l with
  | nil => simp [pat1] at h
  | cons c cs => rw [qualifySpec, if_pos (isPrefixOf_true_iff.mpr h)]

theorem qspec_match2 {l : List Char} (b : List Char) (h1 : ¬ pat1 <+: l) (h : pat2 <+: l) :
    qualifySpec b l = repl pat2 b ++ qualifySpec b (l.drop pat2.length) := by
  cases l with
  | nil => simp [pat2] at h
  | cons c cs =>
    rw [qualifySpec, if_neg (by simpa [isPrefixOf_true_iff] using h1),
      if_pos (isPrefixOf_true_iff.mpr h)]

theorem qspec_match3 {l : List Char} (b : List Char) (h1 : ¬ pat1 <+: l) (h2 : ¬ pat2 <+: l)
    (h : pat3 <+: l) :
    qualifySpec b l = repl pat3 b ++ qualifySpec b (l.drop pat3.length) := by
  cases l with
  | nil => simp [pat3] at h
  | cons c cs =>
    rw [qualifySpec, if_neg (by simpa [isPrefixOf_true_iff] using h1),
      if_neg (by simpa [isPrefixOf_true_iff] using h2),
      if_pos (isPrefixOf_true_iff.mpr h)]

theorem qspec_match4 {l : List Char} (b : List Char) (h1 : ¬ pat1 <+: l) (h2 : ¬ pat2 <+: l)
    (h3 : ¬ pat3 <+: l) (h : pat4 <+: l) :
    qualifySpec b l = repl pat4 b ++ qualifySpec b (l.drop pat4.length) := by
  cases l with
  | nil => simp [pat4] at h
  | cons c cs =>
    rw [qualifySpec, if_neg (by simpa [isPrefixOf_true_iff] using h1),
      if_neg (by simpa [isPrefixOf_true_iff] using h2),
      if_neg (by simpa [isPrefixOf_true_iff] using h3),
      if_pos (isPrefixOf_true_iff.mpr h)]

theorem qspec_nomatch {c : Char} {cs : List Char} (b : List Char)
    (h1 : ¬ pat1 <+: (c :: cs)) (h2 : ¬ pat2 <+: (c :: cs))
    (h3 : ¬ pat3 <+: (c :: cs)) (h4 : ¬ pat4 <+: (c :: cs)) :
    qualifySpec b (c :: cs) = c :: qualifySpec b cs := by
  rw [qualifySpec, if_neg (by simpa [isPrefixOf_true_iff] using h1),
    if_neg (by simpa [isPrefixOf_true_iff] using h2),
    if_neg (by simpa [isPrefixOf_true_iff] using h3),
    if_neg (by simpa [isPrefixOf_true_iff] using h4)]

/-- Core refinement: the four sequential `str::replace` passes of the source
compute exactly the one-pass rewrite `qualifySpec`. -/
theorem replace4_eq_spec (b : List Char) (hb : noRawQuote b) (l : List Char) :
    replace pat4 (repl pat4 b) (replace pat3 (repl pat3 b) (replace pat2 (repl pat2 b)
      (replace pat1 (repl pat1 b) l))) = qualifySpec b l := by
  suffices H : ∀ N, ∀ l : List Char, l.length ≤ N →
      replace pat4 (repl pat4 b) (replace pat3 (repl pat3 b) (replace pat2 (repl pat2 b)
        (replace pat1 (repl pat1 b) l))) = qualifySpec b l from H l.length l le_rfl
  intro N
  induction N with
  | zero =>
    intro l hl
    obtain rfl : l = [] := List.length_eq_zero.mp (Nat.le_zero.mp hl)
    rw [replace_nil, replace_nil, replace_nil, replace_nil, qspec_nil]
  | succ N ih =>
    intro l hl
    by_cases h1 : pat1 <+: l
    · obtain ⟨rest, rfl⟩ := h1
      rw [qspec_match1 b (List.prefix_append pat1 rest), List.drop_left]
      rw [replace_head_match (repl pat1 b) (by decide) (List.prefix_append pat1 rest),
        List.drop_left]
      rw [replace_append (repl pat2 b) (blocksR12 b hb)]
      rw [replace_append (repl pat3 b) (blocksR13 b hb)]
      rw [replace_append (repl pat4 b) (blocksR14 b hb)]
      rw [ih rest (by simp [pat1] at hl; omega)]
    · by_cases h2 : pat2 <+: l
      · obtain ⟨rest, rfl⟩ := h2
        rw [qspec_match2 b h1 (List.prefix_append pat2 rest), List.drop_left]
        rw [show pat2 ++ rest = 'p' :: (['a', 't', 'h', '=', '"'] ++ rest) from rfl]
        rw [replace_cons_neg (repl pat1 b) (by exact h1)]
        rw [replace_append (repl pat1 b) blocksTail2Pat1]
        rw [show ∀ W : List Char, 'p' :: (['a', 't', 'h', '=', '"'] ++ W) = pat2 ++ W
          from fun W => rfl]
        rw [replace_head_match (repl pat2 b) (by decide)
          (List.prefix_append pat2 (replace pat1 (repl pat1 b) rest)), List.drop_left]
        rw [replace_append (repl pat3 b) (blocksR23 b hb)]
        rw [replace_append (repl pat4 b) (blocksR24 b hb)]
        rw [ih rest (by simp [pat2] at hl; omega)]
      · by_cases h3 : pat3 <+: l
        · obtain ⟨rest, rfl⟩ := h3
          rw [qspec_match3 b h1 h2 (List.prefix_append pat3 rest), List.drop_left]
          rw [show pat3 ++ rest = 'p' :: (['a', 't', 'h', ' ', '=', ' ', '\''] ++ rest)
            from rfl]
          rw [replace_cons_neg (repl pat1 b) (by exact h1)]
          rw [replace_append (repl pat1 b) blocksTail3Pat1]
          rw [show ∀ W : List Char, 'p' :: (['a', 't', 'h', ' ', '=', ' ', '\''] ++ W)
            = pat3 ++ W from fun W => rfl]
          rw [replace_append (repl pat2 b) blocksPat3Pat2]
          rw [replace_head_match (repl pat3 b) (by decide)
            (List.prefix_append pat3 (replace pat2 (repl pat2 b)
              (replace pat1 (repl pat1 b) rest))), List.drop_left]
          rw [replace_append (repl pat4 b) (blocksR34 b hb)]
          rw [ih rest (by simp [pat3] at hl; omega)]
        · by_cases h4 : pat4 <+: l
          · obtain ⟨rest, rfl⟩ := h4
            rw [qspec_match4 b h1 h2 h3 (List.prefix_append pat4 rest), List.drop_left]
            rw [show pat4 ++ rest = 'p' :: (['a', 't', 'h', '=', '\''] ++ rest) from rfl]
            rw [replace_cons_neg (repl pat1 b) (by exact h1)]
            rw [replace_append (repl pat1 b) blocksTail4Pat1]
            rw [show ∀ W : List Char, 'p' :: (['a', 't', 'h', '=', '\''] ++ W) = pat4 ++ W
              from fun W => rfl]
            rw [replace_append (repl pat2 b) blocksPat4Pat2]
            rw [replace_append (repl pat3 b) blocksPat4Pat3]
            rw [replace_head_match (repl pat4 b) (by decide)
              (List.prefix_append pat4 (replace pat3 (repl pat3 b) (replace pat2 (repl pat2 b)
                (replace pat1 (repl pat1 b) rest)))), List.drop_left]
            rw [ih rest (by simp [pat4] at hl; omega)]
          · cases l with
            | nil => rw [replace_nil, replace_nil, replace_nil, replace_nil, qspec_nil]
            | cons c cs =>
              rw [replace_cons_neg (repl pat1 b) h1]
              have h2' : ¬ pat2 <+: (c :: replace pat1 (repl pat1 b) cs) :=
                fun hx => h2 (reflect12 b hb c cs hx)
              rw [replace_cons_neg (repl pat2 b) h2']
              have h3' : ¬ pat3 <+: (c :: replace pat2 (repl pat2 b)
                  (replace pat1 (repl pat1 b) cs)) :=
                fun hx => h3 (reflect13 b hb c cs (reflect23 b hb c _ hx))
              rw [replace_cons_neg (repl pat3 b) h3']
              have h4' : ¬ pat4 <+: (c :: replace pat3 (repl pat3 b) (replace pat2 (repl pat2 b)
                  (replace pat1 (repl pat1 b) cs))) :=
                fun hx => h4 (reflect14 b hb c cs (reflect24 b hb c _ (reflect34 b hb c _ hx)))
              rw [replace_cons_neg (repl pat4 b) h4']
              rw [ih cs (by simp at hl; omega), qspec_nomatch b h1 h2 h3 h4]

/-! ## Filesystem model (trees of named entries) -/

theorem getEntry_setEntry_self (d : List (String × Entry)) (n : String) (e : Entry) :
    getEntry (setEntry d n e) n = some e := by
  induction d with
  | nil => simp [setEntry, getEntry]
  | cons hd rest ih =>
    obtain ⟨m, x⟩ := hd
    by_cases h : m = n
    · simp [setEntry, h, getEntry]
    · simp [setEntry, h, getEntry, ih]

theorem getEntry_setEntry_ne (d : List (String × Entry)) {n m : String} (e : Entry)
    (h : n ≠ m) : getEntry (setEntry d n e) m = getEntry d m := by
  induction d with
  | nil => simp [setEntry, getEntry, h]
  | cons hd rest ih =>
    obtain ⟨k, x⟩ := hd
    by_cases hk : k = n
    · subst hk
      simp [setEntry, getEntry, h]
    · simp [setEntry, hk, getEntry, ih]

theorem getEntry_removeEntry_self (d : List (String × Entry)) (n : String) :
    getEntry (removeEntry d n) n = none := by
  induction d with
  | nil => simp [removeEntry, getEntry]
  | cons hd rest ih =>
    obtain ⟨k, x⟩ := hd
    by_cases hk : k = n
    · simpa [removeEntry, hk] using ih
    · simpa [removeEntry, hk, getEntry] using ih

theorem getEntry_removeEntry_ne (d : List (String × Entry)) {n m : String} (h : n ≠ m) :
    getEntry (removeEntry d n) m = getEntry d m := by
  induction d with
  | nil => simp [removeEntry, getEntry]
  | cons hd rest ih =>
    obtain ⟨k, x⟩ := hd
    by_cases hk : k = n
    · subst hk
      simpa [removeEntry, getEntry, h, Ne.symm h] using ih
    · by_cases hm : k = m
      · subst hm
        simp [removeEntry, hk, getEntry]
      · simpa [removeEntry, hk, getEntry, hm] using ih

theorem hasKey_cons_false {k : String} {e : Entry} {rest : List (String × Entry)} {n : String}
    (h : hasKey ((k, e) :: rest) n = false) : k ≠ n ∧ hasKey rest n = false := by
  simpa [hasKey] using h

/-- The mirror `cpDir` never touches destination entries whose name is absent from the
source listing, neither on success nor in the state carried by an error. -/
theorem cp_preserve (src out : List (String × Entry)) (n : String) :
    hasKey src n = false →
    ((∀ out', cpDir src out = Except.ok out' → getEntry out' n = getEntry out n) ∧
     (∀ m st, cpDir src out = Except.error (m, st) → getEntry st n = getEntry out n)) := by
  induction src, out using cpDir.induct with
  | case1 out =>
    intro _
    refine ⟨fun out' h => ?_, fun m st h => ?_⟩
    · simp only [cpDir] at h
      cases h
      rfl
    · simp [cpDir] at h
  | case2 k c rest out cleared ih =>
    intro hk
    obtain ⟨hkn, hrest⟩ := hasKey_cons_false hk
    obtain ⟨ihok, iherr⟩ := ih hrest
    have hcl : getEntry cleared n = getEntry out n := by
      show getEntry (match getEntry out k with
        | some _ => removeEntry out k
        | none => out) n = getEntry out n
      cases hgo : getEntry out k
      · rfl
      · exact getEntry_removeEntry_ne _ hkn
    have hout1 : getEntry (setEntry cleared k (Entry.file c)) n = getEntry out n := by
      rw [getEntry_setEntry_ne _ _ hkn, hcl]
    refine ⟨fun out' h => ?_, fun m st h => ?_⟩
    · simp only [cpDir] at h
      rw [ihok out' h, hout1]
    · simp only [cpDir] at h
      rw [iherr m st h, hout1]
  | case3 k sub rest out a hgo =>
    intro hk
    obtain ⟨hkn, hrest⟩ := hasKey_cons_false hk
    refine ⟨fun out' h => ?_, fun m st h => ?_⟩
    · simp [cpDir, hgo] at h
    · simp only [cpDir, hgo] at h
      obtain ⟨_, rfl⟩ := Prod.mk.injEq .. ▸ (by
        cases h
        exact ⟨rfl, rfl⟩ : m = "Cannot create directory" ∧ st = out)
      rfl
  | case4 k sub rest out d0 hgo msg st hcp ihsub =>
    intro hk
    obtain ⟨hkn, hrest⟩ := hasKey_cons_false hk
    refine ⟨fun out' h => ?_, fun m st' h => ?_⟩
    · simp [cpDir, hgo, hcp] at h
    · simp only [cpDir, hgo, hcp] at h
      cases h
      rw [getEntry_setEntry_ne _ _ hkn]
  | case5 k sub rest out d0 hgo st hcp ihsub ihrest =>
    intro hk
    obtain ⟨hkn, hrest⟩ := hasKey_cons_false hk
    obtain ⟨ihok, iherr⟩ := ihrest hrest
    have hout1 : getEntry (setEntry out k (Entry.dir st)) n = getEntry out n :=
      getEntry_setEntry_ne _ _ hkn
    refine ⟨fun out' h => ?_, fun m st' h => ?_⟩
    · simp only [cpDir, hgo, hcp] at h
      rw [ihok out' h, hout1]
    · simp only [cpDir, hgo, hcp] at h
      rw [iherr m st' h, hout1]
  | case6 k sub rest out hgo msg st hcp ihsub =>
    intro hk
    obtain ⟨hkn, hrest⟩ := hasKey_cons_false hk
    refine ⟨fun out' h => ?_, fun m st' h => ?_⟩
    · simp [cpDir, hgo, hcp] at h
    · simp only [cpDir, hgo, hcp] at h
      cases h
      rw [getEntry_setEntry_ne _ _ hkn]
  | case7 k sub rest out hgo st hcp ihsub ihrest =>
    intro hk
    obtain ⟨hkn, hrest⟩ := hasKey_cons_false hk
    obtain ⟨ihok, iherr⟩ := ihrest hrest
    have hout1 : getEntry (setEntry out k (Entry.dir st)) n = getEntry out n :=
      getEntry_setEntry_ne _ _ hkn
    refine ⟨fun out' h => ?_, fun m st' h => ?_⟩
    · simp only [cpDir, hgo, hcp] at h
      rw [ihok out' h, hout1]
    · simp only [cpDir, hgo, hcp] at h
      rw [iherr m st' h, hout1]

theorem wfDir_cons_file {k : String} {c : List Char} {rest : List (String × Entry)}
    (h : wfDir ((k, Entry.file c) :: rest) = true) :
    hasKey rest k = false ∧ wfDir rest = true := by
  simpa [wfDir, Bool.and_eq_true, Bool.not_eq_true'] using h

theorem wfDir_cons_dir {k : String} {d : List (String × Entry)} {rest : List (String × Entry)}
    (h : wfDir ((k, Entry.dir d) :: rest) = true) :
    hasKey rest k = false ∧ wfDir d = true ∧ wfDir rest = true := by
  have := h
  simp [wfDir, Bool.and_eq_true, Bool.not_eq_true'] at this
  exact ⟨this.1.1, this.1.2, this.2⟩

/-- Success of `cpDir` mirrors the whole source tree: every source file is at
the same relative path in the destination with the same content, and every
source directory exists in the destination. -/
theorem cp_mirrors (src out : List (String × Entry)) :
    wfDir src = true →
    ∀ out', cpDir src out = Except.ok out' →
      ((∀ p c, lookupPathD src p = some (Entry.file c) →
          lookupPathD out' p = some (Entry.file c)) ∧
       (∀ p d, lookupPathD src p = some (Entry.dir d) →
          ∃ d', lookupPathD out' p = some (Entry.dir d'))) := by
  induction src, out using cpDir.induct with
  | case1 out =>
    intro _ out' h
    simp only [cpDir] at h
    cases h
    constructor
    · intro p c hp
      cases p with
      | nil => simp [lookupPathD, lookupE] at hp
      | cons m p' => simp [lookupPathD, lookupE, getEntry] at hp
    · intro p d hp
      cases p with
      | nil => exact ⟨out, rfl⟩
      | cons m p' => simp [lookupPathD, lookupE, getEntry] at hp
  | case2 k c rest out cleared ih =>
    intro hwf out' h
    obtain ⟨hkey, hwfr⟩ := wfDir_cons_file hwf
    simp only [cpDir] at h
    obtain ⟨ihf, ihd⟩ := ih hwfr out' h
    have hk' : getEntry out' k = some (Entry.file c) := by
      rw [(cp_preserve rest _ k hkey).1 out' h, getEntry_setEntry_self]
    constructor
    · intro p c0 hp
      cases p with
      | nil => simp [lookupPathD, lookupE] at hp
      | cons m p' =>
        by_cases hm : k = m
        · subst hm
          have hq : lookupE (Entry.file c) p' = some (Entry.file c0) := by
            simpa [lookupPathD, lookupE, getEntry] using hp
          cases p' with
          | nil =>
            obtain rfl : c = c0 := by simpa [lookupE] using hq
            simp [lookupPathD, lookupE, hk']
          | cons q qs => simp [lookupE] at hq
        · have hp' : lookupPathD rest (m :: p') = some (Entry.file c0) := by
            simpa [lookupPathD, lookupE, getEntry, hm] using hp
          exact ihf (m :: p') c0 hp'
    · intro p d hp
      cases p with
      | nil => exact ⟨out', rfl⟩
      | cons m p' =>
        by_cases hm : k = m
        · subst hm
          have hq : lookupE (Entry.file c) p' = some (Entry.dir d) := by
            simpa [lookupPathD, lookupE, getEntry] using hp
          cases p' with
          | nil => simp [lookupE] at hq
          | cons q qs => simp [lookupE] at hq
        · have hp' : lookupPathD rest (m :: p') = some (Entry.dir d) := by
            simpa [lookupPathD, lookupE, getEntry, hm] using hp
          exact ihd (m :: p') d hp'
  | case3 k sub rest out a hgo =>
    intro _ out' h
    simp [cpDir, hgo] at h
  | case4 k sub rest out d0 hgo msg st hcp ihsub =>
    intro _ out' h
    simp [cpDir, hgo, hcp] at h
  | case5 k sub rest out d0 hgo st hcp ihsub ihrest =>
    intro hwf out' h
    obtain ⟨hkey, hwfs, hwfr⟩ := wfDir_cons_dir hwf
    simp only [cpDir, hgo, hcp] at h
    obtain ⟨ihf, ihd⟩ := ihrest hwfr out' h
    obtain ⟨isf, isd⟩ := ihsub hwfs st hcp
    have hk' : getEntry out' k = some (Entry.dir st) := by
      rw [(cp_preserve rest _ k hkey).1 out' h, getEntry_setEntry_self]
    constructor
    · intro p c0 hp
      cases p with
      | nil => simp [lookupPathD, lookupE] at hp
      | cons m p' =>
        by_cases hm : k = m
        · subst hm
          have hq : lookupE (Entry.dir sub) p' = some (Entry.file c0) := by
            simpa [lookupPathD, lookupE, getEntry] using hp
          cases p' with
          | nil => simp [lookupE] at hq
          | cons q qs =>
            have hst := isf (q :: qs) c0 (by simpa [lookupPathD] using hq)
            show lookupPathD out' (k :: q :: qs) = some (Entry.file c0)
            simpa [lookupPathD, lookupE, hk'] using hst
        · have hp' : lookupPathD rest (m :: p') = some (Entry.file c0) := by
            simpa [lookupPathD, lookupE, getEntry, hm] using hp
          exact ihf (m :: p') c0 hp'
    · intro p d hp
      cases p with
      | nil => exact ⟨out', rfl⟩
      | cons m p' =>
        by_cases hm : k = m
        · subst hm
          have hq : lookupE (Entry.dir sub) p' = some (Entry.dir d) := by
            simpa [lookupPathD, lookupE, getEntry] using hp
          cases p' with
          | nil =>
            refine ⟨st, ?_⟩
            simp [lookupPathD, lookupE, hk']
          | cons q qs =>
            obtain ⟨d', hd'⟩ := isd (q :: qs) d (by simpa [lookupPathD] using hq)
            refine ⟨d', ?_⟩
            show lookupPathD out' (k :: q :: qs) = some (Entry.dir d')
            simpa [lookupPathD, lookupE, hk'] using hd'
        · have hp' : lookupPathD rest (m :: p') = some (Entry.dir d) := by
            simpa [lookupPathD, lookupE, getEntry, hm] using hp
          exact ihd (m :: p') d hp'
  | case6 k sub rest out hgo msg st hcp ihsub =>
    intro _ out' h
    simp [cpDir, hgo, hcp] at h
  | case7 k sub rest out hgo st hcp ihsub ihrest =>
    intro hwf out' h
    obtain ⟨hkey, hwfs, hwfr⟩ := wfDir_cons_dir hwf
    simp only [cpDir, hgo, hcp] at h
    obtain ⟨ihf, ihd⟩ := ihrest hwfr out' h
    obtain ⟨isf, isd⟩ := ihsub hwfs st hcp
    have hk' : getEntry out' k = some (Entry.dir st) := by
      rw [(cp_preserve rest _ k hkey).1 out' h, getEntry_setEntry_self]
    constructor
    · intro p c0 hp
      cases p with
      | nil => simp [lookupPathD, lookupE] at hp
      | cons m p' =>
        by_cases hm : k = m
        · subst hm
          have hq : lookupE (Entry.dir sub) p' = some (Entry.file c0) := by
            simpa [lookupPathD, lookupE, getEntry] using hp
          cases p' with
          | nil => simp [lookupE] at hq
          | cons q qs =>
            have hst := isf (q :: qs) c0 (by simpa [lookupPathD] using hq)
            show lookupPathD out' (k :: q :: qs) = some (Entry.file c0)
            simpa [lookupPathD, lookupE, hk'] using hst
        · have hp' : lookupPathD rest (m :: p') = some (Entry.file c0) := by
            simpa [lookupPathD, lookupE, getEntry, hm] using hp
          exact ihf (m :: p') c0 hp'
    · intro p d hp
      cases p with
      | nil => exact ⟨out', rfl⟩
      | cons m p' =>
        by_cases hm : k = m
        · subst hm
          have hq : lookupE (Entry.dir sub) p' = some (Entry.dir d) := by
            simpa [lookupPathD, lookupE, getEntry] using hp
          cases p' with
          | nil =>
            refine ⟨st, ?_⟩
            simp [lookupPathD, lookupE, hk']
          | cons q qs =>
            obtain ⟨d', hd'⟩ := isd (q :: qs) d (by simpa [lookupPathD] using hq)
            refine ⟨d', ?_⟩
            show lookupPathD out' (k :: q :: qs) = some (Entry.dir d')
            simpa [lookupPathD, lookupE, hk'] using hd'
        · have hp' : lookupPathD rest (m :: p') = some (Entry.dir d) := by
            simpa [lookupPathD, lookupE, getEntry, hm] using hp
          exact ihd (m :: p') d hp'

theorem getEntry_setEntry_lookup {out : List (String × Entry)} {k m : String}
    (e : Entry) (hm : k ≠ m) (p' : List String) :
    lookupPathD (setEntry out k e) (m :: p') = lookupPathD out (m :: p') := by
  simp [lookupPathD, lookupE, getEntry_setEntry_ne _ _ hm]

/-- A source directory over a destination file makes the whole mirror abort,
and the conflicting destination file survives, untouched, in the state at
the abort. -/
theorem cp_conflict (src out : List (String × Entry)) :
    ∀ (p : List String) (c : List Char),
    wfDir src = true →
    (∃ d, lookupPathD src p = some (Entry.dir d)) →
    lookupPathD out p = some (Entry.file c) →
    ∃ msg st, cpDir src out = Except.error (msg, st) ∧
      lookupPathD st p = some (Entry.file c) := by
  induction src, out using cpDir.induct with
  | case1 out =>
    intro p c _ hs ho
    obtain ⟨d, hd⟩ := hs
    cases p with
    | nil =>
      rw [show lookupPathD out [] = some (Entry.dir out) from rfl] at ho
      cases ho
    | cons m p' => simp [lookupPathD, lookupE, getEntry] at hd
  | case2 k c0 rest out cleared ih =>
    intro p c hwf hs ho
    obtain ⟨hkey, hwfr⟩ := wfDir_cons_file hwf
    obtain ⟨d, hd⟩ := hs
    cases p with
    | nil => cases ho
    | cons m p' =>
      by_cases hm : k = m
      · subst hm
        have hq : lookupE (Entry.file c0) p' = some (Entry.dir d) := by
          simpa [lookupPathD, lookupE, getEntry] using hd
        cases p' with
        | nil => simp [lookupE] at hq
        | cons q qs => simp [lookupE] at hq
      · have hcl : getEntry cleared m = getEntry out m := by
          show getEntry (match getEntry out k with
            | some _ => removeEntry out k
            | none => out) m = getEntry out m
          cases getEntry out k
          · rfl
          · exact getEntry_removeEntry_ne _ hm
        have ho1 : lookupPathD (setEntry cleared k (Entry.file c0)) (m :: p')
            = some (Entry.file c) := by
          rw [getEntry_setEntry_lookup _ hm, show lookupPathD cleared (m :: p')
            = lookupPathD out (m :: p') by simp [lookupPathD, lookupE, hcl]]
          exact ho
        have hd' : lookupPathD rest (m :: p') = some (Entry.dir d) := by
          simpa [lookupPathD, lookupE, getEntry, hm] using hd
        obtain ⟨msg, st, hcp, hst⟩ := ih (m :: p') c hwfr ⟨d, hd'⟩ ho1
        refine ⟨msg, st, ?_, hst⟩
        simpa only [cpDir] using hcp
  | case3 k sub rest out a hgo =>
    intro p c _ _ ho
    refine ⟨"Cannot create directory", out, ?_, ho⟩
    simp [cpDir, hgo]
  | case4 k sub rest out d0 hgo msg st hcp ihsub =>
    intro p c hwf hs ho
    obtain ⟨hkey, hwfs, hwfr⟩ := wfDir_cons_dir hwf
    obtain ⟨d, hd⟩ := hs
    cases p with
    | nil => cases ho
    | cons m p' =>
      by_cases hm : k = m
      · subst hm
        have ho' : lookupPathD d0 p' = some (Entry.file c) := by
          simpa [lookupPathD, lookupE, hgo] using ho
        have hq : lookupE (Entry.dir sub) p' = some (Entry.dir d) := by
          simpa [lookupPathD, lookupE, getEntry] using hd
        cases p' with
        | nil => simp [lookupPathD, lookupE] at ho'
        | cons q qs =>
          obtain ⟨msg', st', hcp', hst'⟩ := ihsub (q :: qs) c hwfs
            ⟨d, by simpa [lookupPathD] using hq⟩ ho'
          rw [hcp] at hcp'
          obtain ⟨rfl, rfl⟩ : msg = msg' ∧ st = st' := by
            cases hcp'
            exact ⟨rfl, rfl⟩
          refine ⟨msg, setEntry out k (Entry.dir st), ?_, ?_⟩
          · simp [cpDir, hgo, hcp]
          · show lookupPathD (setEntry out k (Entry.dir st)) (k :: q :: qs)
              = some (Entry.file c)
            simpa [lookupPathD, lookupE, getEntry_setEntry_self] using hst'
      · refine ⟨msg, setEntry out k (Entry.dir st), ?_, ?_⟩
        · simp [cpDir, hgo, hcp]
        · rw [getEntry_setEntry_lookup _ hm]
          exact ho
  | case5 k sub rest out d0 hgo st hcp ihsub ihrest =>
    intro p c hwf hs ho
    obtain ⟨hkey, hwfs, hwfr⟩ := wfDir_cons_dir hwf
    obtain ⟨d, hd⟩ := hs
    cases p with
    | nil => cases ho
    | cons m p' =>
      by_cases hm : k = m
      · subst hm
        have ho' : lookupPathD d0 p' = some (Entry.file c) := by
          simpa [lookupPathD, lookupE, hgo] using ho
        have hq : lookupE (Entry.dir sub) p' = some (Entry.dir d) := by
          simpa [lookupPathD, lookupE, getEntry] using hd
        cases p' with
        | nil => simp [lookupPathD, lookupE] at ho'
        | cons q qs =>
          obtain ⟨msg', st', hcp', _⟩ := ihsub (q :: qs) c hwfs
            ⟨d, by simpa [lookupPathD] using hq⟩ ho'
          rw [hcp] at hcp'
          cases hcp'
      · have ho1 : lookupPathD (setEntry out k (Entry.dir st)) (m :: p')
            = some (Entry.file c) := by
          rw [getEntry_setEntry_lookup _ hm]
          exact ho
        have hd' : lookupPathD rest (m :: p') = some (Entry.dir d) := by
          simpa [lookupPathD, lookupE, getEntry, hm] using hd
        obtain ⟨msg, st', hcp', hst⟩ := ihrest (m :: p') c hwfr ⟨d, hd'⟩ ho1
        refine ⟨msg, st', ?_, hst⟩
        simpa only [cpDir, hgo, hcp] using hcp'
  | case6 k sub rest out hgo msg st hcp ihsub =>
    intro p c hwf hs ho
    obtain ⟨d, hd⟩ := hs
    cases p with
    | nil => cases ho
    | cons m p' =>
      by_cases hm : k = m
      · subst hm
        have : lookupPathD out (k :: p') = none := by
          simp [lookupPathD, lookupE, hgo]
        rw [this] at ho
        cases ho
      · refine ⟨msg, setEntry out k (Entry.dir st), ?_, ?_⟩
        · simp [cpDir, hgo, hcp]
        · rw [getEntry_setEntry_lookup _ hm]
          exact ho
  | case7 k sub rest out hgo st hcp ihsub ihrest =>
    intro p c hwf hs ho
    obtain ⟨hkey, hwfs, hwfr⟩ := wfDir_cons_dir hwf
    obtain ⟨d, hd⟩ := hs
    cases p with
    | nil => cases ho
    | cons m p' =>
      by_cases hm : k = m
      · subst hm
        have : lookupPathD out (k :: p') = none := by
          simp [lookupPathD, lookupE, hgo]
        rw [this] at ho
        cases ho
      · have ho1 : lookupPathD (setEntry out k (Entry.dir st)) (m :: p')
            = some (Entry.file c) := by
          rw [getEntry_setEntry_lookup _ hm]
          exact ho
        have hd' : lookupPathD rest (m :: p') = some (Entry.dir d) := by
          simpa [lookupPathD, lookupE, getEntry, hm] using hd
        obtain ⟨msg, st', hcp', hst⟩ := ihrest (m :: p') c hwfr ⟨d, hd'⟩ ho1
        refine ⟨msg, st', ?_, hst⟩
        simpa only [cpDir, hgo, hcp] using hcp'

/-! ## Lemmas about root-path operations -/

theorem createDirAll_lookup (fs : List (String × Entry)) (p : List String) :
    ∀ fs', createDirAll fs p = some fs' → ∃ d, lookupPathD fs' p = some (Entry.dir d) := by
  induction fs, p using createDirAll.induct with
  | case1 fs =>
    intro fs' h
    simp only [createDirAll] at h
    cases h
    exact ⟨fs, rfl⟩
  | case2 fs n rest a hgo =>
    intro fs' h
    simp [createDirAll, hgo] at h
  | case3 fs n rest d0 hgo d' hc ih =>
    intro fs' h
    rw [show createDirAll fs (n :: rest) = some (setEntry fs n (Entry.dir d')) by
      simp [createDirAll, hgo, hc]] at h
    cases h
    obtain ⟨d, hd⟩ := ih d' hc
    exact ⟨d, by simpa [lookupPathD, lookupE, getEntry_setEntry_self] using hd⟩
  | case4 fs n rest d0 hgo hc ih =>
    intro fs' h
    simp [createDirAll, hgo, hc] at h
  | case5 fs n rest hgo d' hc ih =>
    intro fs' h
    rw [show createDirAll fs (n :: rest) = some (setEntry fs n (Entry.dir d')) by
      simp [createDirAll, hgo, hc]] at h
    cases h
    obtain ⟨d, hd⟩ := ih d' hc
    exact ⟨d, by simpa [lookupPathD, lookupE, getEntry_setEntry_self] using hd⟩
  | case6 fs n rest hgo hc ih =>
    intro fs' h
    simp [createDirAll, hgo, hc] at h

theorem setPath_dir_above :
    ∀ (p : List String) (fs : List (String × Entry)) (q : List String) (e : Entry)
      (d : List (String × Entry)),
    q ≠ [] → lookupPathD fs p = some (Entry.dir d) →
    ∃ d', lookupPathD (setPath fs (p ++ q) e) p = some (Entry.dir d') := by
  intro p
  induction p with
  | nil =>
    intro fs q e d _ _
    exact ⟨setPath fs q e, rfl⟩
  | cons n p' ih =>
    intro fs q e d hq hl
    cases hgo : getEntry fs n with
    | none => simp [lookupPathD, lookupE, hgo] at hl
    | some e1 =>
      cases e1 with
      | file c =>
        have : lookupE (Entry.file c) p' = some (Entry.dir d) := by
          simpa [lookupPathD, lookupE, hgo] using hl
        cases p' <;> simp [lookupE] at this
      | dir d1 =>
        have hl' : lookupPathD d1 p' = some (Entry.dir d) := by
          simpa [lookupPathD, lookupE, hgo] using hl
        obtain ⟨d', hd'⟩ := ih d1 q e d hq hl'
        refine ⟨d', ?_⟩
        have hstep : setPath fs ((n :: p') ++ q) e
            = setEntry fs n (Entry.dir (setPath d1 (p' ++ q) e)) := by
          cases hpq : p' ++ q with
          | nil => exact absurd (List.append_eq_nil.mp hpq).2 hq
          | cons a as =>
            rw [List.cons_append, hpq]
            simp [setPath, hgo]
        rw [hstep]
        simpa [lookupPathD, lookupE, getEntry_setEntry_self] using hd'

theorem removeDirAll_of_dir :
    ∀ (p : List String) (fs : List (String × Entry)) (d : List (String × Entry)),
    p ≠ [] → lookupPathD fs p = some (Entry.dir d) →
    ∃ fs', removeDirAllP fs p = some fs' ∧ lookupPathD fs' p = none := by
  intro p
  induction p with
  | nil => intro fs d h _; exact absurd rfl h
  | cons n p' ih =>
    intro fs d _ hl
    cases p' with
    | nil =>
      have hgo : getEntry fs n = some (Entry.dir d) := by
        cases hg : getEntry fs n with
        | none => simp [lookupPathD, lookupE, hg] at hl
        | some e => simpa [lookupPathD, lookupE, hg, lookupE] using hl
      refine ⟨removeEntry fs n, ?_, ?_⟩
      · simp [removeDirAllP, hgo]
      · simp [lookupPathD, lookupE, getEntry_removeEntry_self]
    | cons q qs =>
      cases hgo : getEntry fs n with
      | none => simp [lookupPathD, lookupE, hgo] at hl
      | some e1 =>
        cases e1 with
        | file c =>
          have : lookupE (Entry.file c) (q :: qs) = some (Entry.dir d) := by
            simpa [lookupPathD, lookupE, hgo] using hl
          simp [lookupE] at this
        | dir d1 =>
          have hl' : lookupPathD d1 (q :: qs) = some (Entry.dir d) := by
            simpa [lookupPathD, lookupE, hgo] using hl
          obtain ⟨d1', hrm, hnone⟩ := ih d1 d (by simp) hl'
          refine ⟨setEntry fs n (Entry.dir d1'), ?_, ?_⟩
          · simp [removeDirAllP, hgo, hrm]
          · simpa [lookupPathD, lookupE, getEntry_setEntry_self] using hnone

theorem removeDirAll_of_missing :
    ∀ (p : List String) (fs : List (String × Entry)),
    p ≠ [] → lookupPathD fs p = none → removeDirAllP fs p = none := by
  intro p
  induction p with
  | nil => intro fs h _; exact absurd rfl h
  | cons n p' ih =>
    intro fs _ hl
    cases p' with
    | nil =>
      have hgo : getEntry fs n = none := by
        cases hg : getEntry fs n with
        | none => rfl
        | some e => simp [lookupPathD, lookupE, hg] at hl
      simp [removeDirAllP, hgo]
    | cons q qs =>
      cases hgo : getEntry fs n with
      | none => simp [removeDirAllP, hgo]
      | some e1 =>
        cases e1 with
        | file c => simp [removeDirAllP, hgo]
        | dir d1 =>
          have hl' : lookupPathD d1 (q :: qs) = none := by
            simpa [lookupPathD, lookupE, hgo] using hl
          simp [removeDirAllP, hgo, ih d1 (by simp) hl']

theorem setPath_lookup_self :
    ∀ (p : List String) (fs : List (String × Entry)) (e : Entry), p ≠ [] →
    lookupPathD (setPath fs p e) p = some e := by
  intro p
  induction p with
  | nil => intro fs e h; exact absurd rfl h
  | cons n p' ih =>
    intro fs e _
    cases p' with
    | nil => simp [setPath, lookupPathD, lookupE, getEntry_setEntry_self]
    | cons q qs =>
      cases hgo : getEntry fs n with
      | none =>
        have := ih [] e (by simp)
        simpa [setPath, hgo, lookupPathD, lookupE, getEntry_setEntry_self] using this
      | some e1 =>
        cases e1 with
        | file c =>
          have := ih [] e (by simp)
          simpa [setPath, hgo, lookupPathD, lookupE, getEntry_setEntry_self] using this
        | dir d =>
          have := ih d e (by simp)
          simpa [setPath, hgo, lookupPathD, lookupE, getEntry_setEntry_self] using this

theorem stagingPath_ne_nil (s : Sys) : stagingPath s ≠ [] := by
  simp [stagingPath]

theorem stagingPath_under_temp (s : Sys) : s.tempDir.isPrefixOf (stagingPath s) = true := by
  rw [isPrefixOf_true_iff]
  exact List.prefix_append s.tempDir _

/-- When the staging path names a directory, the destructor removes it and
reports exactly one removal. -/
theorem finishDrop_ok (fs : List (String × Entry)) (staging tempRoot : List String)
    (evs : List Event) (oc : Outcome) (d : List (String × Entry))
    (hpre : tempRoot.isPrefixOf staging = true)
    (hne : staging ≠ [])
    (hdir : lookupPathD fs staging = some (Entry.dir d)) :
    (finishDrop fs staging tempRoot evs oc).events = evs ++ [Event.removedStaging staging] ∧
    lookupPathD (finishDrop fs staging tempRoot evs oc).fs staging = none := by
  obtain ⟨fs', hrm, hnone⟩ := removeDirAll_of_dir staging fs d hne hdir
  constructor <;> simp [finishDrop, buildDirDrop, hpre, hrm, hnone]

/-- When the staging path does not exist, the destructor's removal fails, the
run aborts, and the filesystem is returned unchanged with no removal event. -/
theorem finishDrop_missing (fs : List (String × Entry)) (staging tempRoot : List String)
    (evs : List Event) (oc : Outcome)
    (hpre : tempRoot.isPrefixOf staging = true)
    (hne : staging ≠ [])
    (hmiss : lookupPathD fs staging = none) :
    finishDrop fs staging tempRoot evs oc
      = ⟨Outcome.panicked "Couldn't clean up build dir", fs, evs⟩ := by
  simp [finishDrop, buildDirDrop, hpre, removeDirAll_of_missing staging fs hne hmiss]

/-- Combined destructor result: a removal-free event log plus a staging
directory present in the filesystem yield exactly one removal and no
staging entry afterwards. -/
theorem finishDrop_result (fs : List (String × Entry)) (staging tempRoot : List String)
    (evs : List Event) (oc : Outcome) (d : List (String × Entry))
    (hpre : tempRoot.isPrefixOf staging = true)
    (hne : staging ≠ [])
    (hdir : lookupPathD fs staging = some (Entry.dir d))
    (hevs : evs.filterMap (fun e =>
      match e with
      | Event.removedStaging p => some p
      | _ => none) = []) :
    removals (finishDrop fs staging tempRoot evs oc) = [staging] ∧
    lookupPathD (finishDrop fs staging tempRoot evs oc).fs staging = none := by
  obtain ⟨fs', hrm, hnone⟩ := removeDirAll_of_dir staging fs d hne hdir
  constructor
  · simp [removals, finishDrop, buildDirDrop, hpre, hrm, hevs]
  · simp [finishDrop, buildDirDrop, hpre, hrm, hnone]

/-- Main cleanup lemma: whenever the staging directory gets created, every
exit path of the run performs exactly one staging removal and leaves no
entry at the staging path. -/
theorem run_staging_removed_once (s : Sys) (src : List String)
    (hname : src.getLast?.isSome = true)
    (hcargo : (envVar s.env "CARGO").isSome = true)
    (hpath : (envVar s.env "PATH").isSome = true)
    (hmdir : (envVar s.env "CARGO_MANIFEST_DIR").isSome = true)
    (hcreate : (createDirAll s.fs (stagingPath s)).isSome = true) :
    removals (run_build_crate s src) = [stagingPath s] ∧
    lookupPathD (run_build_crate s src).fs (stagingPath s) = none := by
  obtain ⟨execName, hgl⟩ := Option.isSome_iff_exists.mp hname
  obtain ⟨cargo, hc⟩ := Option.isSome_iff_exists.mp hcargo
  obtain ⟨pathv, hp⟩ := Option.isSome_iff_exists.mp hpath
  obtain ⟨mdir, hm⟩ := Option.isSome_iff_exists.mp hmdir
  obtain ⟨fs1, hcr⟩ := Option.isSome_iff_exists.mp hcreate
  obtain ⟨d1, hd1⟩ := createDirAll_lookup s.fs (stagingPath s) fs1 hcr
  have hpre := stagingPath_under_temp s
  have hne := stagingPath_ne_nil s
  simp only [run_build_crate, hgl, hc, hp, hm, hcr]
  rcases hsrc : lookupPathD fs1 src with _ | e
  · simp only [hd1]
    refine finishDrop_result _ _ _ _ _ d1 hpre hne ?_ ?_
    · exact hd1
    · simp
  · cases e with
    | file c =>
      simp only [hd1]
      refine finishDrop_result _ _ _ _ _ d1 hpre hne ?_ ?_
      · exact hd1
      · simp
    | dir srcEntries =>
      simp only [hd1]
      rcases hcp : cpDir srcEntries d1 with ⟨msg, st⟩ | st <;> simp only []
      · refine finishDrop_result _ _ _ _ _ st hpre hne ?_ ?_
        · exact setPath_lookup_self (stagingPath s) fs1 (Entry.dir st) hne
        · simp
      · have hdir2 := setPath_lookup_self (stagingPath s) fs1 (Entry.dir st) hne
        rcases htoml : lookupPathD (setPath fs1 (stagingPath s) (Entry.dir st))
            (stagingPath s ++ ["Cargo.toml"]) with _ | e2
        · refine finishDrop_result _ _ _ _ _ st hpre hne ?_ ?_
          · exact hdir2
          · simp
        · cases e2 with
          | dir dd =>
            refine finishDrop_result _ _ _ _ _ st hpre hne ?_ ?_
            · exact hdir2
            · simp
          | file content =>
            obtain ⟨d3, hd3⟩ := setPath_dir_above (stagingPath s)
              (setPath fs1 (stagingPath s) (Entry.dir st)) ["Cargo.toml"]
              (Entry.file (qualify_cargo_toml_paths_in_text content
                ((mdir ++ "/build-script").toList))) st (by simp) hdir2
            cases hco : s.compileOk
            · refine finishDrop_result _ _ _ _ _ d3 hpre hne ?_ ?_
              · exact hd3
              · simp
            · cases hso : s.scriptOk
              · refine finishDrop_result _ _ _ _ _ d3 hpre hne ?_ ?_
                · exact hd3
                · simp
              · refine finishDrop_result _ _ _ _ _ d3 hpre hne ?_ ?_
                · exact hd3
                · simp

/-- Environment-abort lemma: with a fresh staging name, a missing required
variable aborts the run with the ambient filesystem completely untouched
and nothing but the rerun directive emitted. -/
theorem run_env_abort (s : Sys) (src : List String)
    (hfresh : lookupPathD s.fs (stagingPath s) = none)
    (hmiss : envVar s.env "CARGO" = none ∨ envVar s.env "PATH" = none ∨
      envVar s.env "CARGO_MANIFEST_DIR" = none) :
    (∃ m, (run_build_crate s src).outcome = Outcome.panicked m) ∧
    (run_build_crate s src).fs = s.fs ∧
    (run_build_crate s src).events = [Event.rerunIfChanged src] := by
  have hpre := stagingPath_under_temp s
  have hne := stagingPath_ne_nil s
  cases hgl : src.getLast? with
  | none =>
    simp only [run_build_crate, hgl]
    rw [finishDrop_missing _ _ _ _ _ hpre hne hfresh]
    exact ⟨⟨_, rfl⟩, rfl, rfl⟩
  | some execName =>
    cases hc : envVar s.env "CARGO" with
    | none =>
      simp only [run_build_crate, hgl, hc]
      rw [finishDrop_missing _ _ _ _ _ hpre hne hfresh]
      exact ⟨⟨_, rfl⟩, rfl, rfl⟩
    | some cargo =>
      cases hp : envVar s.env "PATH" with
      | none =>
        simp only [run_build_crate, hgl, hc, hp]
        rw [finishDrop_missing _ _ _ _ _ hpre hne hfresh]
        exact ⟨⟨_, rfl⟩, rfl, rfl⟩
      | some pathv =>
        cases hmd : envVar s.env "CARGO_MANIFEST_DIR" with
        | none =>
          simp only [run_build_crate, hgl, hc, hp, hmd]
          rw [finishDrop_missing _ _ _ _ _ hpre hne hfresh]
          exact ⟨⟨_, rfl⟩, rfl, rfl⟩
        | some mdir =>
          rcases hmiss with hm | hm | hm
          · rw [hc] at hm; cases hm
          · rw [hp] at hm; cases hm
          · rw [hmd] at hm; cases hm

theorem script_mem_finishDrop {c : Command} {fs : List (String × Entry)}
    {staging temp : List String} {evs : List Event} {oc : Outcome}
    (h : Event.spawnScript c ∈ (finishDrop fs staging temp evs oc).events) :
    Event.spawnScript c ∈ evs := by
  unfold finishDrop at h
  rcases hb : buildDirDrop fs staging temp with ⟨m, fs'⟩ | fs'
  · rw [hb] at h
    exact h
  · rw [hb] at h
    simp only [List.mem_append, List.mem_singleton] at h
    rcases h with h | h
    · exact h
    · cases h

/-- Every recorded build-script invocation runs the binary at
`<staging>/target/debug/<last component of src>`, in the original source
directory, with the environment inherited unrestricted. -/
theorem script_spawn_shape (s : Sys) (src : List String) (c : Command)
    (h : Event.spawnScript c ∈ (run_build_crate s src).events) :
    ∃ execName, src.getLast? = some execName ∧
      c = run_build_script_cmd (stagingPath s) execName src := by
  cases hgl : src.getLast? with
  | none =>
    simp only [run_build_crate, hgl] at h
    have := script_mem_finishDrop h
    simp at this
  | some execName =>
    refine ⟨execName, rfl, ?_⟩
    simp only [run_build_crate, hgl] at h
    cases hc : envVar s.env "CARGO" with
    | none =>
      simp only [hc] at h
      have := script_mem_finishDrop h
      simp at this
    | some cargo =>
    simp only [hc] at h
    cases hp : envVar s.env "PATH" with
    | none =>
      simp only [hp] at h
      have := script_mem_finishDrop h
      simp at this
    | some pathv =>
    simp only [hp] at h
    cases hmd : envVar s.env "CARGO_MANIFEST_DIR" with
    | none =>
      simp only [hmd] at h
      have := script_mem_finishDrop h
      simp at this
    | some mdir =>
    simp only [hmd] at h
    cases hcr : createDirAll s.fs (stagingPath s) with
    | none =>
      simp only [hcr] at h
      have := script_mem_finishDrop h
      simp at this
    | some fs1 =>
    simp only [hcr] at h
    rcases hsrc : lookupPathD fs1 src with _ | e <;> (try simp only [hsrc] at h)
    · rcases hstg : lookupPathD fs1 (stagingPath s) with _ | e2 <;> (try simp only [hstg] at h) <;>
        [skip; cases e2] <;>
        · have := script_mem_finishDrop h
          simp at this
    · rcases hstg : lookupPathD fs1 (stagingPath s) with _ | e2 <;> (try simp only [hstg] at h)
      · cases e <;>
          · have := script_mem_finishDrop h
            simp at this
      · cases e with
        | file cf =>
          cases e2 <;>
            · have := script_mem_finishDrop h
              simp at this
        | dir srcEntries =>
          cases e2 with
          | file c2 =>
            have := script_mem_finishDrop h
            simp at this
          | dir stEntries =>
          rcases hcp : cpDir srcEntries stEntries with ⟨msg, st⟩ | st <;> (try simp only [hcp] at h)
          · have := script_mem_finishDrop h
            simp at this
          · rcases htoml : lookupPathD (setPath fs1 (stagingPath s) (Entry.dir st))
                (stagingPath s ++ ["Cargo.toml"]) with _ | e3 <;> (try simp only [htoml] at h)
            · have := script_mem_finishDrop h
              simp at this
            · cases e3 with
              | dir dd =>
                have := script_mem_finishDrop h
                simp at this
              | file content =>
                cases hco : s.compileOk <;>
                  simp only [hco, Bool.false_eq_true, if_false, if_true] at h
                · have := script_mem_finishDrop h
                  simp at this
                · cases hso : s.scriptOk <;>
                    simp only [hso, Bool.false_eq_true, if_false, if_true] at h
                  · have := script_mem_finishDrop h
                    simp at this
                    exact this
                  · have := script_mem_finishDrop h
                    simp at this
                    exact this

theorem compileSpawns_one (oc : Outcome) (fs : List (String × Entry)) (src : List String) :
    compileSpawns ⟨oc, fs, [Event.rerunIfChanged src]⟩ = [] := rfl

theorem compileSpawns_one' (oc : Outcome) (fs : List (String × Entry)) (src p : List String) :
    compileSpawns ⟨oc, fs, [Event.rerunIfChanged src, Event.removedStaging p]⟩ = [] := rfl

theorem compileSpawns_two (oc : Outcome) (fs : List (String × Entry)) (src : List String)
    (c : Command) :
    compileSpawns ⟨oc, fs, [Event.rerunIfChanged src, Event.spawnCompile c]⟩ = [c] := rfl

theorem compileSpawns_three (oc : Outcome) (fs : List (String × Entry)) (src : List String)
    (c r : Command) :
    compileSpawns ⟨oc, fs,
      [Event.rerunIfChanged src, Event.spawnCompile c, Event.spawnScript r]⟩ = [c] := rfl

theorem compile_finishDrop (fs : List (String × Entry)) (staging temp : List String)
    (evs : List Event) (oc : Outcome) :
    compileSpawns (finishDrop fs staging temp evs oc)
      = compileSpawns ⟨oc, fs, evs⟩ := by
  unfold compileSpawns finishDrop
  rcases hb : buildDirDrop fs staging temp with ⟨m, fs'⟩ | fs'
  · rfl
  · simp

/-- The compile spawns of a run are exactly the command of `compileCmdOf`. -/
theorem compileSpawns_run (s : Sys) (src : List String) :
    compileSpawns (run_build_crate s src) = (compileCmdOf s src).toList := by
  cases hgl : src.getLast? with
  | none => simp [run_build_crate, compileCmdOf, hgl, compile_finishDrop, compileSpawns_one, compileSpawns_two, compileSpawns_three]
  | some execName =>
  cases hc : envVar s.env "CARGO" with
  | none => simp [run_build_crate, compileCmdOf, hgl, hc, compile_finishDrop, compileSpawns_one, compileSpawns_two, compileSpawns_three]
  | some cargo =>
  cases hp : envVar s.env "PATH" with
  | none => simp [run_build_crate, compileCmdOf, hgl, hc, hp, compile_finishDrop, compileSpawns_one, compileSpawns_two, compileSpawns_three]
  | some pathv =>
  cases hmd : envVar s.env "CARGO_MANIFEST_DIR" with
  | none =>
    simp [run_build_crate, compileCmdOf, hgl, hc, hp, hmd, compile_finishDrop, compileSpawns_one, compileSpawns_two, compileSpawns_three]
  | some mdir =>
  cases hcr : createDirAll s.fs (stagingPath s) with
  | none =>
    simp [run_build_crate, compileCmdOf, hgl, hc, hp, hmd, hcr, compile_finishDrop, compileSpawns_one, compileSpawns_two, compileSpawns_three]
  | some fs1 =>
  rcases hsrc : lookupPathD fs1 src with _ | e
  · simp [run_build_crate, compileCmdOf, hgl, hc, hp, hmd, hcr, hsrc,
      compile_finishDrop, compileSpawns_one, compileSpawns_two, compileSpawns_three]
  · rcases hstg : lookupPathD fs1 (stagingPath s) with _ | e2
    · cases e <;>
        simp [run_build_crate, compileCmdOf, hgl, hc, hp, hmd, hcr, hsrc, hstg,
          compile_finishDrop, compileSpawns_one, compileSpawns_two, compileSpawns_three]
    · cases e <;> cases e2 <;>
        try simp [run_build_crate, compileCmdOf, hgl, hc, hp, hmd, hcr, hsrc, hstg,
          compile_finishDrop, compileSpawns_one, compileSpawns_two, compileSpawns_three]
      rename_i srcEntries stEntries
      rcases hcp : cpDir srcEntries stEntries with ⟨msg, st⟩ | st
      · simp [run_build_crate, compileCmdOf, hgl, hc, hp, hmd, hcr, hsrc, hstg, hcp,
          compile_finishDrop, compileSpawns_one, compileSpawns_two, compileSpawns_three]
      · rcases htoml : lookupPathD (setPath fs1 (stagingPath s) (Entry.dir st))
            (stagingPath s ++ ["Cargo.toml"]) with _ | e3
        · simp [run_build_crate, compileCmdOf, hgl, hc, hp, hmd, hcr, hsrc, hstg, hcp, htoml,
            compile_finishDrop, compileSpawns_one, compileSpawns_two, compileSpawns_three]
        · cases e3 with
          | dir dd =>
            simp [run_build_crate, compileCmdOf, hgl, hc, hp, hmd, hcr, hsrc, hstg, hcp, htoml,
              compile_finishDrop, compileSpawns_one, compileSpawns_two, compileSpawns_three]
          | file content =>
            cases hco : s.compileOk <;> cases hso : s.scriptOk <;>
              simp [run_build_crate, compileCmdOf, hgl, hc, hp, hmd, hcr, hsrc, hstg, hcp,
                htoml, hco, hso, compile_finishDrop, compileSpawns_one, compileSpawns_two, compileSpawns_three]

/-- Structure of any spawned compile command: cleared environment holding
exactly the fixed names, working directory = staging directory. -/
theorem compileCmdOf_shape (s : Sys) (src : List String) (c : Command)
    (h : compileCmdOf s src = some c) :
    c.cwd = stagingPath s ∧
    c.envMode.map (List.map Prod.fst)
      = some ["TEMP", "SYSTEMROOT", "PATH", "SSH_AUTH_SOCK", "RUSTUP_HOME", "RUSTUP_TOOLCHAIN"] ∧
    c.args = ["build", "-vv"] := by
  unfold compileCmdOf at h
  repeat' split at h
  all_goals cases h
  all_goals exact ⟨rfl, rfl, rfl⟩

/-- Two ambient environments agreeing on the allow-list (and on whether the
project-manifest directory is set at all) produce the same compile
invocation, whatever their other variables hold. -/
theorem compileCmdOf_agree (s1 s2 : Sys) (src : List String)
    (hfs : s1.fs = s2.fs) (htd : s1.tempDir = s2.tempDir) (hns : s1.nowSecs = s2.nowSecs)
    (hagree : ∀ n ∈ allowNames, envVar s1.env n = envVar s2.env n)
    (hmani : (envVar s1.env "CARGO_MANIFEST_DIR").isSome
      = (envVar s2.env "CARGO_MANIFEST_DIR").isSome) :
    compileCmdOf s1 src = compileCmdOf s2 src := by
  have hstg : stagingPath s2 = stagingPath s1 := by simp [stagingPath, htd, hns]
  have hC : envVar s2.env "CARGO" = envVar s1.env "CARGO" :=
    (hagree "CARGO" (by simp [allowNames])).symm
  have hT : envVar s2.env "TEMP" = envVar s1.env "TEMP" :=
    (hagree "TEMP" (by simp [allowNames])).symm
  have hS : envVar s2.env "SYSTEMROOT" = envVar s1.env "SYSTEMROOT" :=
    (hagree "SYSTEMROOT" (by simp [allowNames])).symm
  have hP : envVar s2.env "PATH" = envVar s1.env "PATH" :=
    (hagree "PATH" (by simp [allowNames])).symm
  have hSSH : envVar s2.env "SSH_AUTH_SOCK" = envVar s1.env "SSH_AUTH_SOCK" :=
    (hagree "SSH_AUTH_SOCK" (by simp [allowNames])).symm
  have hRH : envVar s2.env "RUSTUP_HOME" = envVar s1.env "RUSTUP_HOME" :=
    (hagree "RUSTUP_HOME" (by simp [allowNames])).symm
  have hRT : envVar s2.env "RUSTUP_TOOLCHAIN" = envVar s1.env "RUSTUP_TOOLCHAIN" :=
    (hagree "RUSTUP_TOOLCHAIN" (by simp [allowNames])).symm
  cases hgl : src.getLast? with
  | none => simp [compileCmdOf, hgl]
  | some execName =>
  cases hc : envVar s1.env "CARGO" with
  | none => simp [compileCmdOf, hgl, hc, hC]
  | some cargo =>
  cases hp1 : envVar s1.env "PATH" with
  | none => simp [compileCmdOf, hgl, hc, hC, hp1, hP]
  | some pathv =>
  cases hm1 : envVar s1.env "CARGO_MANIFEST_DIR" with
  | none =>
    have hm2 : envVar s2.env "CARGO_MANIFEST_DIR" = none := by
      cases hx : envVar s2.env "CARGO_MANIFEST_DIR" with
      | none => rfl
      | some m => rw [hm1, hx] at hmani; simp at hmani
    simp [compileCmdOf, hgl, hc, hC, hp1, hP, hm1, hm2]
  | some m1 =>
    obtain ⟨m2, hm2⟩ : ∃ m2, envVar s2.env "CARGO_MANIFEST_DIR" = some m2 := by
      rw [hm1] at hmani
      exact Option.isSome_iff_exists.mp hmani.symm
    simp only [compileCmdOf, hgl, hc, hC, hp1, hP, hm1, hm2]
    rw [← hfs, hstg, hT, hSSH, hRH, hRT,
      show ∀ bd c t p ss rh rt, compile_build_crate s2.env bd c t p ss rh rt
        = compile_build_crate s1.env bd c t p ss rh rt from
        fun bd c t p ss rh rt => by simp [compile_build_crate, hS]]

theorem qualify_eq_spec (text baseDir : List Char) :
    qualify_cargo_toml_paths_in_text text baseDir
      = qualifySpec (escapeDefault baseDir) text :=
  replace4_eq_spec (escapeDefault baseDir) (noRawQuote_escapeDefault baseDir) text

/-- A pattern-free text is returned byte-for-byte identical. -/
theorem qualifySpec_id (b : List Char) :
    ∀ l : List Char,
    (∀ i < l.length, ¬ (pat1 <+: l.drop i ∨ pat2 <+: l.drop i ∨
      pat3 <+: l.drop i ∨ pat4 <+: l.drop i)) →
    qualifySpec b l = l := by
  suffices H : ∀ N, ∀ l : List Char, l.length ≤ N →
      (∀ i < l.length, ¬ (pat1 <+: l.drop i ∨ pat2 <+: l.drop i ∨
        pat3 <+: l.drop i ∨ pat4 <+: l.drop i)) →
      qualifySpec b l = l from fun l => H l.length l le_rfl
  intro N
  induction N with
  | zero =>
    intro l hl _
    obtain rfl : l = [] := List.length_eq_zero.mp (Nat.le_zero.mp hl)
    exact qspec_nil b
  | succ N ih =>
    intro l hl h
    cases l with
    | nil => exact qspec_nil b
    | cons c cs =>
      have h0 := h 0 (by simp)
      push_neg at h0
      obtain ⟨h1, h2, h3, h4⟩ := h0
      rw [qspec_nomatch b (by simpa using h1) (by simpa using h2) (by simpa using h3)
        (by simpa using h4)]
      rw [ih cs (by simp at hl; omega) ?_]
      intro i hi
      have := h (i + 1) (by simpa using Nat.succ_lt_succ hi)
      simpa using this

theorem qualifySpec_length_le (b : List Char) :
    ∀ l : List Char, l.length ≤ (qualifySpec b l).length := by
  suffices H : ∀ N, ∀ l : List Char, l.length ≤ N →
      l.length ≤ (qualifySpec b l).length from fun l => H l.length l le_rfl
  intro N
  induction N with
  | zero =>
    intro l hl
    obtain rfl : l = [] := List.length_eq_zero.mp (Nat.le_zero.mp hl)
    simp [qspec_nil]
  | succ N ih =>
    intro l hl
    cases l with
    | nil => simp [qspec_nil]
    | cons c cs =>
      by_cases h1 : pat1 <+: (c :: cs)
      · rw [qspec_match1 b h1]
        have hlen : pat1.length ≤ (c :: cs).length := h1.length_le
        have := ih ((c :: cs).drop pat1.length) (by simp [pat1] at hl ⊢; omega)
        simp only [List.length_append, List.length_drop, repl, pat1] at *
        omega
      · by_cases h2 : pat2 <+: (c :: cs)
        · rw [qspec_match2 b h1 h2]
          have hlen : pat2.length ≤ (c :: cs).length := h2.length_le
          have := ih ((c :: cs).drop pat2.length) (by simp [pat2] at hl ⊢; omega)
          simp only [List.length_append, List.length_drop, repl, pat2] at *
          omega
        · by_cases h3 : pat3 <+: (c :: cs)
          · rw [qspec_match3 b h1 h2 h3]
            have hlen : pat3.length ≤ (c :: cs).length := h3.length_le
            have := ih ((c :: cs).drop pat3.length) (by simp [pat3] at hl ⊢; omega)
            simp only [List.length_append, List.length_drop, repl, pat3] at *
            omega
          · by_cases h4 : pat4 <+: (c :: cs)
            · rw [qspec_match4 b h1 h2 h3 h4]
              have hlen : pat4.length ≤ (c :: cs).length := h4.length_le
              have := ih ((c :: cs).drop pat4.length) (by simp [pat4] at hl ⊢; omega)
              simp only [List.length_append, List.length_drop, repl, pat4] at *
              omega
            · rw [qspec_nomatch b h1 h2 h3 h4]
              have := ih cs (by simp at hl; omega)
              simp only [List.length_cons]
              omega

theorem qualifySpec_length_lt (b : List Char) :
    ∀ l : List Char, hasPattern l → l.length < (qualifySpec b l).length := by
  suffices H : ∀ N, ∀ l : List Char, l.length ≤ N → hasPattern l →
      l.length < (qualifySpec b l).length from fun l => H l.length l le_rfl
  intro N
  induction N with
  | zero =>
    intro l hl hp
    obtain rfl : l = [] := List.length_eq_zero.mp (Nat.le_zero.mp hl)
    obtain ⟨i, hi⟩ := hp
    simp [pat1, pat2, pat3, pat4, List.drop_nil] at hi
  | succ N ih =>
    intro l hl hp
    cases l with
    | nil =>
      obtain ⟨i, hi⟩ := hp
      simp [pat1, pat2, pat3, pat4, List.drop_nil] at hi
    | cons c cs =>
      by_cases h1 : pat1 <+: (c :: cs)
      · rw [qspec_match1 b h1]
        have hlen : pat1.length ≤ (c :: cs).length := h1.length_le
        have := qualifySpec_length_le b ((c :: cs).drop pat1.length)
        simp [List.length_append, List.length_drop, repl, pat1] at *
        omega
      · by_cases h2 : pat2 <+: (c :: cs)
        · rw [qspec_match2 b h1 h2]
          have hlen : pat2.length ≤ (c :: cs).length := h2.length_le
          have := qualifySpec_length_le b ((c :: cs).drop pat2.length)
          simp [List.length_append, List.length_drop, repl, pat2] at *
          omega
        · by_cases h3 : pat3 <+: (c :: cs)
          · rw [qspec_match3 b h1 h2 h3]
            have hlen : pat3.length ≤ (c :: cs).length := h3.length_le
            have := qualifySpec_length_le b ((c :: cs).drop pat3.length)
            simp [List.length_append, List.length_drop, repl, pat3] at *
            omega
          · by_cases h4 : pat4 <+: (c :: cs)
            · rw [qspec_match4 b h1 h2 h3 h4]
              have hlen : pat4.length ≤ (c :: cs).length := h4.length_le
              have := qualifySpec_length_le b ((c :: cs).drop pat4.length)
              simp [List.length_append, List.length_drop, repl, pat4] at *
              omega
            · obtain ⟨i, hi⟩ := hp
              cases i with
              | zero =>
                rw [List.drop_zero] at hi
                rcases hi with hi | hi | hi | hi
                · exact absurd hi h1
                · exact absurd hi h2
                · exact absurd hi h3
                · exact absurd hi h4
              | succ j =>
                rw [qspec_nomatch b h1 h2 h3 h4]
                have := ih cs (by simp at hl; omega) ⟨j, by simpa using hi⟩
                simp only [List.length_cons]
                omega

theorem qualifySpec_keeps (b : List Char) :
    ∀ l : List Char, hasPattern l → hasPattern (qualifySpec b l) := by
  suffices H : ∀ N, ∀ l : List Char, l.length ≤ N → hasPattern l →
      hasPattern (qualifySpec b l) from fun l => H l.length l le_rfl
  intro N
  induction N with
  | zero =>
    intro l hl hp
    obtain rfl : l = [] := List.length_eq_zero.mp (Nat.le_zero.mp hl)
    obtain ⟨i, hi⟩ := hp
    simp [pat1, pat2, pat3, pat4, List.drop_nil] at hi
  | succ N ih =>
    intro l hl hp
    cases l with
    | nil =>
      obtain ⟨i, hi⟩ := hp
      simp [pat1, pat2, pat3, pat4, List.drop_nil] at hi
    | cons c cs =>
      by_cases h1 : pat1 <+: (c :: cs)
      · rw [qspec_match1 b h1]
        exact ⟨0, Or.inl (by
          simpa [repl, List.append_assoc] using
            List.prefix_append pat1 (b ++ ['/'] ++ qualifySpec b ((c :: cs).drop pat1.length)))⟩
      · by_cases h2 : pat2 <+: (c :: cs)
        · rw [qspec_match2 b h1 h2]
          exact ⟨0, Or.inr (Or.inl (by
            simpa [repl, List.append_assoc] using
              List.prefix_append pat2 (b ++ ['/'] ++ qualifySpec b ((c :: cs).drop pat2.length))))⟩
        · by_cases h3 : pat3 <+: (c :: cs)
          · rw [qspec_match3 b h1 h2 h3]
            exact ⟨0, Or.inr (Or.inr (Or.inl (by
              simpa [repl, List.append_assoc] using
                List.prefix_append pat3 (b ++ ['/'] ++ qualifySpec b ((c :: cs).drop pat3.length)))))⟩
          · by_cases h4 : pat4 <+: (c :: cs)
            · rw [qspec_match4 b h1 h2 h3 h4]
              exact ⟨0, Or.inr (Or.inr (Or.inr (by
                simpa [repl, List.append_assoc] using
                  List.prefix_append pat4 (b ++ ['/'] ++ qualifySpec b ((c :: cs).drop pat4.length)))))⟩
            · obtain ⟨i, hi⟩ := hp
              cases i with
              | zero =>
                rw [List.drop_zero] at hi
                rcases hi with hi | hi | hi | hi
                · exact absurd hi h1
                · exact absurd hi h2
                · exact absurd hi h3
                · exact absurd hi h4
              | succ j =>
                rw [qspec_nomatch b h1 h2 h3 h4]
                obtain ⟨i', hi'⟩ := ih cs (by simp at hl; omega) ⟨j, by simpa using hi⟩
                exact ⟨i' + 1, by simpa using hi'⟩

/-! ## Claim theorems -/

/-- C1: `qualify(text, base_dir)` returns the input text with the escaped
textual form of `base_dir` plus `/` inserted immediately after the opening
quote at every literal occurrence of the four spellings `path = "`,
`path="`, `path = '`, `path='`, and every other byte preserved: the four
sequential replaces of the source compute exactly the one-pass spec rewrite
`qualifySpec`, and a pattern-free input is returned byte-for-byte
identical. -/
theorem claim_C1_qualify_matches_spec (text baseDir : List Char) :
    qualify_cargo_toml_paths_in_text text baseDir
        = qualifySpec (escapeDefault baseDir) text ∧
    ((∀ i < text.length, ¬ (pat1 <+: text.drop i ∨ pat2 <+: text.drop i ∨
        pat3 <+: text.drop i ∨ pat4 <+: text.drop i)) →
      qualify_cargo_toml_paths_in_text text baseDir = text) :=
  ⟨qualify_eq_spec text baseDir,
   fun h => (qualify_eq_spec text baseDir).trans (qualifySpec_id _ text h)⟩

theorem claim_C1_witness :
    qualify_cargo_toml_paths_in_text ("name = \"x\"".toList) ("/b".toList)
      = ("name = \"x\"".toList) :=
  (claim_C1_qualify_matches_spec ("name = \"x\"".toList) ("/b".toList)).2 (by decide)

/-- C2: before the recursive deletion at release, the staging handle checks
its stored path is under the system temp root (`Path::starts_with`); if the
check fails the drop aborts at once with the assertion message, and the
filesystem is carried out unchanged — nothing is deleted. -/
theorem claim_C2_drop_asserts_under_temp (fs : List (String × Entry))
    (stagingDir tempRoot : List String)
    (h : tempRoot.isPrefixOf stagingDir = false) :
    buildDirDrop fs stagingDir tempRoot
      = Except.error ("assertion failed: self.path.starts_with(env::temp_dir())", fs) := by
  simp [buildDirDrop, h]

theorem claim_C2_witness :
    buildDirDrop [("home", Entry.dir [])] ["home", "me"] ["tmp"]
      = Except.error ("assertion failed: self.path.starts_with(env::temp_dir())",
          [("home", Entry.dir [])]) :=
  claim_C2_drop_asserts_under_temp [("home", Entry.dir [])] ["home", "me"] ["tmp"] (by decide)

/-- C3: if the mirror completes without a fatal error, every file of the
source tree is present in the destination at the same relative path with
identical byte content, and every directory of the source tree has a
directory at the same relative path in the destination. -/
theorem claim_C3_mirror_copies_tree (src out out' : List (String × Entry))
    (hwf : wfDir src = true) (h : cpDir src out = Except.ok out') :
    (∀ p c, lookupPathD src p = some (Entry.file c) →
      lookupPathD out' p = some (Entry.file c)) ∧
    (∀ p d, lookupPathD src p = some (Entry.dir d) →
      ∃ d', lookupPathD out' p = some (Entry.dir d')) :=
  cp_mirrors src out hwf out' h

theorem claim_C3_witness :
    lookupPathD [("a", Entry.dir [("f", Entry.file ['h', 'i'])]), ("g", Entry.file ['x'])]
      ["a", "f"] = some (Entry.file ['h', 'i']) :=
  (claim_C3_mirror_copies_tree
      [("a", Entry.dir [("f", Entry.file ['h', 'i'])]), ("g", Entry.file ['x'])] []
      [("a", Entry.dir [("f", Entry.file ['h', 'i'])]), ("g", Entry.file ['x'])]
      (by simp [wfDir, hasKey])
      (by simp [cpDir, getEntry, setEntry, removeEntry])).1
    ["a", "f"] ['h', 'i'] (by rfl)

/-- C4: once the staging directory is created, every exit path of the run —
success, mirror failure, unreadable manifest, failed compile, failed script
— records exactly one recursive staging removal, and no entry remains at
the staging path when the entry point returns. -/
theorem claim_C4_staging_removed_once (s : Sys) (src : List String)
    (hname : src.getLast?.isSome = true)
    (hcargo : (envVar s.env "CARGO").isSome = true)
    (hpath : (envVar s.env "PATH").isSome = true)
    (hmdir : (envVar s.env "CARGO_MANIFEST_DIR").isSome = true)
    (hcreate : (createDirAll s.fs (stagingPath s)).isSome = true) :
    removals (run_build_crate s src) = [stagingPath s] ∧
    lookupPathD (run_build_crate s src).fs (stagingPath s) = none :=
  run_staging_removed_once s src hname hcargo hpath hmdir hcreate

theorem claim_C4_witness :
    removals (run_build_crate sampleSys ["src"]) = [stagingPath sampleSys] ∧
    lookupPathD (run_build_crate sampleSys ["src"]).fs (stagingPath sampleSys) = none :=
  claim_C4_staging_removed_once sampleSys ["src"] rfl rfl rfl rfl rfl

/-- C5: when a source file entry hits an occupied destination name, the
run removes the pre-existing destination entry first (whatever it is) and
then creates a fresh file with the source content, so the final entry is
exactly the source file — a full replacement, never a merge. -/
theorem claim_C5_conflicting_file_replaced (out : List (String × Entry)) (n : String)
    (c : List Char) (e : Entry) (rest : List (String × Entry))
    (out' : List (String × Entry))
    (hocc : getEntry out n = some e) (hrest : hasKey rest n = false)
    (hok : cpDir ((n, Entry.file c) :: rest) out = Except.ok out') :
    cpDir ((n, Entry.file c) :: rest) out
      = cpDir rest (setEntry (removeEntry out n) n (Entry.file c)) ∧
    getEntry out' n = some (Entry.file c) := by
  have hstep : cpDir ((n, Entry.file c) :: rest) out
      = cpDir rest (setEntry (removeEntry out n) n (Entry.file c)) := by
    simp only [cpDir, hocc]
  refine ⟨hstep, ?_⟩
  rw [hstep] at hok
  rw [(cp_preserve rest _ n hrest).1 out' hok, getEntry_setEntry_self]

theorem claim_C5_witness :
    getEntry [("a", Entry.file ['n', 'e', 'w'])] "a" = some (Entry.file ['n', 'e', 'w']) :=
  (claim_C5_conflicting_file_replaced
      [("a", Entry.dir [("z", Entry.file ['q'])])] "a" ['n', 'e', 'w']
      (Entry.dir [("z", Entry.file ['q'])]) [] [("a", Entry.file ['n', 'e', 'w'])]
      rfl rfl (by simp [cpDir, getEntry, setEntry, removeEntry])).2

/-- C6: the rewrite is not idempotent — for every text containing at least
one of the four path-literal patterns, applying `qualify` twice gives a
different result from applying it once (the base directory is inserted a
second time after each opening quote, strictly lengthening the text). -/
theorem claim_C6_not_idempotent (text baseDir : List Char) (h : hasPattern text) :
    qualify_cargo_toml_paths_in_text
        (qualify_cargo_toml_paths_in_text text baseDir) baseDir
      ≠ qualify_cargo_toml_paths_in_text text baseDir := by
  intro heq
  rw [qualify_eq_spec (qualify_cargo_toml_paths_in_text text baseDir) baseDir,
    qualify_eq_spec text baseDir] at heq
  have hlt := qualifySpec_length_lt (escapeDefault baseDir)
    (qualifySpec (escapeDefault baseDir) text)
    (qualifySpec_keeps (escapeDefault baseDir) text h)
  rw [heq] at hlt
  exact lt_irrefl _ hlt

theorem claim_C6_witness :
    qualify_cargo_toml_paths_in_text
        (qualify_cargo_toml_paths_in_text ("path = \"x\"".toList) ("/b".toList)) ("/b".toList)
      ≠ qualify_cargo_toml_paths_in_text ("path = \"x\"".toList) ("/b".toList) :=
  claim_C6_not_idempotent ("path = \"x\"".toList) ("/b".toList) ⟨0, Or.inl (by decide)⟩

/-- C7: the compile invocation is built from a cleared environment holding
exactly the fixed allow-list (the toolchain launcher CARGO is reintroduced
as the program itself; TEMP, SYSTEMROOT, PATH, SSH_AUTH_SOCK, RUSTUP_HOME,
RUSTUP_TOOLCHAIN as the child environment), with the staging directory as
working directory; consequently two ambient environments agreeing on the
allow-listed variables (and both providing CARGO_MANIFEST_DIR, which is
consumed but never forwarded) spawn identical compile invocations whatever
their other variables hold. -/
theorem claim_C7_compile_env_isolated (s1 s2 : Sys) (src : List String)
    (hfs : s1.fs = s2.fs) (htd : s1.tempDir = s2.tempDir) (hns : s1.nowSecs = s2.nowSecs)
    (hagree : ∀ n ∈ allowNames, envVar s1.env n = envVar s2.env n)
    (hmani : (envVar s1.env "CARGO_MANIFEST_DIR").isSome
      = (envVar s2.env "CARGO_MANIFEST_DIR").isSome) :
    compileSpawns (run_build_crate s1 src) = compileSpawns (run_build_crate s2 src) ∧
    ∀ c ∈ compileSpawns (run_build_crate s1 src),
      c.cwd = stagingPath s1 ∧
      c.envMode.map (List.map Prod.fst)
        = some ["TEMP", "SYSTEMROOT", "PATH", "SSH_AUTH_SOCK", "RUSTUP_HOME",
            "RUSTUP_TOOLCHAIN"] := by
  constructor
  · rw [compileSpawns_run, compileSpawns_run,
      compileCmdOf_agree s1 s2 src hfs htd hns hagree hmani]
  · intro c hc
    rw [compileSpawns_run] at hc
    have hsome : compileCmdOf s1 src = some c := by
      cases hx : compileCmdOf s1 src with
      | none => rw [hx] at hc; simp [Option.toList] at hc
      | some c0 =>
        rw [hx] at hc
        simp [Option.toList] at hc
        rw [hc]
    obtain ⟨h1, h2, _⟩ := compileCmdOf_shape s1 src c hsome
    exact ⟨h1, h2⟩

theorem claim_C7_witness :
    compileSpawns (run_build_crate sampleSys ["src"])
      = compileSpawns (run_build_crate
          { sampleSys with env := sampleSys.env ++ [("SECRET_TOKEN", "hunter2")] } ["src"]) :=
  (claim_C7_compile_env_isolated sampleSys
    { sampleSys with env := sampleSys.env ++ [("SECRET_TOKEN", "hunter2")] } ["src"]
    rfl rfl rfl (by decide) (by decide)).1

/-- C8: every spawned build-script invocation runs the binary at the fixed
relative path `target/debug/<name>` under the staging directory, where
`<name>` is the final component of the build-crate source directory, with
the working directory set to the original unstaged source directory and the
parent environment inherited without restriction. -/
theorem claim_C8_script_run_in_source_dir (s : Sys) (src : List String) (c : Command)
    (h : Event.spawnScript c ∈ (run_build_crate s src).events) :
    ∃ execName, src.getLast? = some execName ∧
      c.program = pathToString (stagingPath s ++ ["target", "debug", execName]) ∧
      c.cwd = src ∧ c.envMode = none := by
  obtain ⟨execName, hgl, rfl⟩ := script_spawn_shape s src c h
  exact ⟨execName, hgl, rfl, rfl, rfl⟩

theorem claim_C8_witness :
    ∃ execName, (["src"] : List String).getLast? = some execName ∧
      (run_build_script_cmd (stagingPath sampleSys) "src" ["src"]).program
        = pathToString (stagingPath sampleSys ++ ["target", "debug", execName]) ∧
      (run_build_script_cmd (stagingPath sampleSys) "src" ["src"]).cwd = ["src"] ∧
      (run_build_script_cmd (stagingPath sampleSys) "src" ["src"]).envMode = none :=
  claim_C8_script_run_in_source_dir sampleSys ["src"]
    (run_build_script_cmd (stagingPath sampleSys) "src" ["src"])
    (by simp [run_build_crate, sampleSys, stagingPath, envVar, createDirAll, getEntry,
      setEntry, lookupPathD, lookupE, cpDir, removeEntry, setPath, finishDrop, buildDirDrop,
      removeDirAllP, qualify_cargo_toml_paths_in_text, replace, escapeDefault,
      compile_build_crate, run_build_script_cmd, pathToString, hasKey])

/-- C9: if a required environment variable (CARGO, PATH, or
CARGO_MANIFEST_DIR) is absent, the run aborts before any filesystem action:
the staging directory is never created, nothing is copied, rewritten or
deleted (the filesystem is returned unchanged), and no subprocess or
removal event is recorded. -/
theorem claim_C9_env_abort_before_fs (s : Sys) (src : List String)
    (hfresh : lookupPathD s.fs (stagingPath s) = none)
    (hmiss : envVar s.env "CARGO" = none ∨ envVar s.env "PATH" = none ∨
      envVar s.env "CARGO_MANIFEST_DIR" = none) :
    (∃ m, (run_build_crate s src).outcome = Outcome.panicked m) ∧
    (run_build_crate s src).fs = s.fs ∧
    (run_build_crate s src).events = [Event.rerunIfChanged src] :=
  run_env_abort s src hfresh hmiss

theorem claim_C9_witness :
    (∃ m, (run_build_crate { sampleSys with env := [("PATH", "/usr/bin")] } ["src"]).outcome
        = Outcome.panicked m) ∧
    (run_build_crate { sampleSys with env := [("PATH", "/usr/bin")] } ["src"]).fs
        = ({ sampleSys with env := [("PATH", "/usr/bin")] } : Sys).fs ∧
    (run_build_crate { sampleSys with env := [("PATH", "/usr/bin")] } ["src"]).events
        = [Event.rerunIfChanged ["src"]] :=
  claim_C9_env_abort_before_fs { sampleSys with env := [("PATH", "/usr/bin")] } ["src"]
    rfl (Or.inl rfl)

/-- C10: when the source tree holds a directory at a relative path where the
destination already holds a regular file, the directory-creation step fails
and the whole mirror aborts fatally; the conflicting destination file is
not removed or replaced — it is still present in the state carried by the
abort. -/
theorem claim_C10_dir_over_file_aborts (src out : List (String × Entry))
    (p : List String) (c : List Char)
    (hwf : wfDir src = true)
    (hs : ∃ d, lookupPathD src p = some (Entry.dir d))
    (ho : lookupPathD out p = some (Entry.file c)) :
    ∃ msg st, cpDir src out = Except.error (msg, st) ∧
      lookupPathD st p = some (Entry.file c) :=
  cp_conflict src out p c hwf hs ho

theorem claim_C10_witness :
    ∃ msg st, cpDir [("a", Entry.dir [])] [("a", Entry.file ['x'])]
        = Except.error (msg, st) ∧
      lookupPathD st ["a"] = some (Entry.file ['x']) :=
  claim_C10_dir_over_file_aborts [("a", Entry.dir [])] [("a", Entry.file ['x'])]
    ["a"] ['x'] (by simp [wfDir, hasKey]) ⟨[], rfl⟩ rfl
